import Mathlib

/-! The receive side of the wush overlay (`overlay/receive.go`).

A shallow embedding of `Receive` and of the functions of `receive.go`:
`PickDERPHome`, `ClientAuth`, `Recv`, `handleNextMessage`, and one iteration of
each goroutine body of `ListenOverlaySTUN` and `ListenOverlayDERP`.

Conventions of the embedding.

* Go state is passed explicitly: a function of the receiver takes a `Receive`
  and gives back the `Receive` it leaves behind.
* Everything the file imports from other packages (the NaCl box of
  `tailscale.com/types/key`, `encoding/json`, `pion/stun`, `cliui`, `pretty`,
  the string renderings of `netip`) is a field of `Env`; the laws those
  libraries obey are stated in `Env.Lawful` and taken as a hypothesis where a
  claim needs them.
* A Go pointer that may be `nil` is an `Option`.
* A buffered channel is the list of the values it buffers, oldest first; a send
  on a full buffer blocks.
* A call ends in one of three ways, see `Outcome`.
-/

namespace Overlay

/-! ## Data model -/

/-- A byte slice. -/
abbrev Bytes := List Nat

/-- The public half of a node key (`key.NodePublic`, 32 bytes read as a number). -/
structure NodePublic where
  k : Nat
  deriving DecidableEq, Repr

/-- The private half of a node key (`key.NodePrivate`). -/
structure NodePrivate where
  k : Nat
  deriving DecidableEq, Repr

/-- The zero value `key.NodePublic{}`. -/
def NodePublic.zero : NodePublic := ⟨0⟩

/-- A node descriptor (`tailcfg.Node`): the overlay reads its `Key` and copies the
rest unchanged. -/
structure Node where
  Key : NodePublic
  Other : Bytes
  deriving DecidableEq, Repr

/-- The zero value `tailcfg.Node{}`. -/
def Node.zero : Node := ⟨NodePublic.zero, []⟩

/-- Modelled from the spec: the `HostInfo` record of a hello (its declaration is in
another file of the package): the human-readable username and hostname. -/
structure HostInfo where
  Username : String
  Hostname : String
  deriving DecidableEq, Repr

/-- The zero value `HostInfo{}`. -/
def HostInfo.zero : HostInfo := ⟨"", ""⟩

/-- Modelled from the spec: the integer message type (its declaration is in another
file of the package). -/
abbrev messageType := Int

/-- Modelled from the spec: 1 = ping. -/
def messageTypePing : messageType := 1
/-- Modelled from the spec: 2 = pong. -/
def messageTypePong : messageType := 2
/-- Modelled from the spec: 3 = hello. -/
def messageTypeHello : messageType := 3
/-- Modelled from the spec: 4 = hello-response. -/
def messageTypeHelloResponse : messageType := 4
/-- Modelled from the spec: 5 = node-update. -/
def messageTypeNodeUpdate : messageType := 5

/-- Modelled from the spec: the `overlayMessage` record (its declaration is in
another file of the package): a message type, hello metadata and a node
descriptor, with the field names `receive.go` uses. -/
structure overlayMessage where
  Typ : messageType
  HostInfo : HostInfo
  Node : Node
  deriving DecidableEq, Repr

/-- The zero value `overlayMessage{}`. -/
def overlayMessage.zero : overlayMessage := ⟨0, HostInfo.zero, Node.zero⟩

/-- An IP address (`netip.Addr`): the zero value, or 4 or 16 bytes. -/
inductive Addr where
  | zero
  | v4 (b : Bytes)
  | v6 (b : Bytes)
  deriving DecidableEq, Repr

/-- The function `netip.Addr.IsValid`: every address but the zero value. -/
def Addr.IsValid : Addr → Bool
  | .zero => false
  | _ => true

/-- The function `netip.Addr.BitLen`. -/
def Addr.BitLen : Addr → Nat
  | .zero => 0
  | .v4 _ => 32
  | .v6 _ => 128

/-- The bytes of an address. -/
def Addr.bytes : Addr → Bytes
  | .zero => []
  | .v4 b => b
  | .v6 b => b

/-- The function `netip.AddrFromSlice`: a slice of 4 or 16 bytes is an address,
any other length is not. -/
def AddrFromSlice (slice : Bytes) : Addr × Bool :=
  if slice.length = 4 then (.v4 slice, true)
  else if slice.length = 16 then (.v6 slice, true)
  else (.zero, false)

/-- A three-way comparison of two numbers. -/
def cmpNat (a b : Nat) : Int :=
  if a < b then -1 else if b < a then 1 else 0

/-- A three-way lexicographic comparison of two byte slices. -/
def cmpBytes : Bytes → Bytes → Int
  | [], [] => 0
  | [], _ :: _ => -1
  | _ :: _, [] => 1
  | a :: as, b :: bs => if cmpNat a b ≠ 0 then cmpNat a b else cmpBytes as bs

/-- The function `netip.Addr.Compare`: by bit length, then by value. -/
def Addr.Compare (a b : Addr) : Int :=
  if cmpNat a.BitLen b.BitLen ≠ 0 then cmpNat a.BitLen b.BitLen
  else cmpBytes a.bytes b.bytes

/-- An address with a port (`netip.AddrPort`); the port is a uint16. -/
structure AddrPort where
  ip : Addr
  port : Nat
  deriving DecidableEq, Repr

/-- The zero value `netip.AddrPort{}`. -/
def AddrPort.zero : AddrPort := ⟨.zero, 0⟩

/-- The function `netip.AddrPortFrom`. -/
def AddrPortFrom (ip : Addr) (port : Nat) : AddrPort := ⟨ip, port⟩

/-- The function `netip.AddrPort.IsValid`: the address is valid, whatever the port. -/
def AddrPort.IsValid (p : AddrPort) : Bool := p.ip.IsValid

/-- The function `netip.AddrPort.Compare`: by address, then by port. -/
def AddrPort.Compare (p q : AddrPort) : Int :=
  if p.ip.Compare q.ip ≠ 0 then p.ip.Compare q.ip else cmpNat p.port q.port

/-- The Go conversion `uint16(x)` of an `int`. -/
def toUint16 (x : Int) : Nat := (x % 65536).toNat

/-- A relay region (`tailcfg.DERPRegion`), as far as `receive.go` reads it. -/
structure DERPRegion where
  RegionID : Int
  RegionName : String
  deriving DecidableEq, Repr

/-- The relay map (`tailcfg.DERPMap`): `Regions` as an association list from
region identifier to region; an identifier without an entry gives `nil`. -/
structure DERPMap where
  Regions : List (Int × DERPRegion)
  deriving DecidableEq, Repr

/-- The Go map index `dm.Regions[id]`: `none` is the nil pointer. -/
def DERPMap.lookup (dm : DERPMap) (id : Int) : Option DERPRegion :=
  (dm.Regions.find? (fun e => e.1 == id)).map (fun e => e.2)

/-- A decoded discovery-service message (`stun.Message`). -/
structure StunMessage where
  Raw : Bytes
  deriving DecidableEq, Repr

/-- The attribute `stun.XORMappedAddress`: an IP as a byte slice and a port. -/
structure XORMappedAddress where
  IP : Bytes
  Port : Int
  deriving DecidableEq, Repr

/-- What `receive.go` calls in other packages. -/
structure Env where
  /-- The function `key.NodePrivate.Public`. -/
  Public : NodePrivate → NodePublic
  /-- The function `key.NodePrivate.SealTo`, with the nonce it draws made explicit. -/
  SealTo : NodePrivate → NodePublic → Bytes → Bytes → Bytes
  /-- The function `key.NodePrivate.OpenFrom`: `none` is `ok = false`. -/
  OpenFrom : NodePrivate → NodePublic → Bytes → Option Bytes
  /-- The function `json.Marshal` on an `overlayMessage`. -/
  Marshal : overlayMessage → Except String Bytes
  /-- The function `json.Unmarshal` into a zero `overlayMessage`. -/
  Unmarshal : Bytes → Except String overlayMessage
  /-- The function `stun.IsMessage`. -/
  StunIsMessage : Bytes → Bool
  /-- The function `stun.Message.Decode`. -/
  StunDecode : Bytes → Except String StunMessage
  /-- The function `stun.XORMappedAddress.GetFrom`. -/
  XorGetFrom : StunMessage → Except String XORMappedAddress
  /-- The function `cliui.Code`. -/
  Code : String → String
  /-- The function `cliui.Keyword`. -/
  Keyword : String → String
  /-- The call `pretty.Sprintf(cliui.DefaultStyles.Warn, ...)` on the rendered text. -/
  Warn : String → String
  /-- The function `netip.AddrPort.String`. -/
  AddrPortString : AddrPort → String
  /-- The function `net.IP.String`. -/
  IPString : Bytes → String
  /-- The function `key.NodePublic.String`. -/
  NodeKeyString : NodePublic → String
  /-- The function `key.NodePublic.ShortString`. -/
  NodeKeyShortString : NodePublic → String

/-- The laws of the libraries: a sealed box opens under the same pair to the
cleartext, and a message as `receive.go` builds them (a type and a node, no hello
metadata) marshals without error and unmarshals to itself. -/
structure Env.Lawful (E : Env) : Prop where
  open_seal : ∀ priv pub nonce clear, E.OpenFrom priv pub (E.SealTo priv pub nonce clear) = some clear
  marshal_ok : ∀ typ node, ∃ raw, E.Marshal ⟨typ, HostInfo.zero, node⟩ = .ok raw ∧
    E.Unmarshal raw = .ok ⟨typ, HostInfo.zero, node⟩

/-- The receiver `Receive`. `Logger` and `HumanLogf` are the lines written so far. -/
structure Receive where
  Logger : List String
  HumanLogf : List String
  DerpMap : DERPMap
  SelfPriv : NodePrivate
  PeerPriv : NodePrivate
  stunIP : AddrPort
  derpRegionID : Nat
  lastNode : Option Node
  in_ : List Node
  out : List (Option Node)
  deriving DecidableEq, Repr

/-- The capacity of `in` and of `out` in `NewReceiveOverlay`: `make(chan *tailcfg.Node, 8)`. -/
def chanCap : Nat := 8

/-- The function `NewReceiveOverlay`, given the two keys `key.NewNode()` draws. -/
def NewReceiveOverlay (dm : DERPMap) (selfPriv peerPriv : NodePrivate) : Receive :=
  { Logger := [], HumanLogf := [], DerpMap := dm, SelfPriv := selfPriv, PeerPriv := peerPriv,
    stunIP := AddrPort.zero, derpRegionID := 0, lastNode := none, in_ := [], out := [] }

/-- How a call ends: it returns, it panics, or it blocks on a channel. -/
inductive Outcome (α : Type) where
  | ret (a : α)
  | panicked (msg : String)
  | blocked
  deriving DecidableEq, Repr

/-- A channel send `ch <- x` with no receiver waiting: the value is buffered when
there is room, and the sender blocks (`none`) when the buffer is full. -/
def chanSend {α : Type} (cap : Nat) (buf : List α) (x : α) : Option (List α) :=
  if buf.length < cap then some (buf ++ [x]) else none

/-- The call `r.HumanLogf(line)`. -/
def Receive.humanLogf (r : Receive) (line : String) : Receive :=
  { r with HumanLogf := r.HumanLogf ++ [line] }

/-- The calls `r.Logger.Error(line)` and `r.Logger.Debug(line)`. -/
def Receive.log (r : Receive) (line : String) : Receive :=
  { r with Logger := r.Logger ++ [line] }

/-! ## `PickDERPHome`, `ClientAuth`, `Recv` -/

/-- Modelled from the spec: the authorization bundle `ClientAuth` (its declaration is
in another file of the package), with the four fields `Receive.ClientAuth` fills. -/
structure ClientAuth where
  OverlayPrivateKey : NodePrivate
  ReceiverPublicKey : NodePublic
  ReceiverStunAddr : AddrPort
  ReceiverDERPRegionID : Nat
  deriving DecidableEq, Repr

/-- The function `Receive.PickDERPHome`. `report` is what `nc.GetReport` returns: an
error, or the `PreferredDERP` of the report. The result is the returned error
(`none` is `nil`). Reading `RegionName` through a nil region panics. -/
def Receive.PickDERPHome (E : Env) (r : Receive) (report : Except String Int) :
    Receive × Outcome (Option String) :=
  match report with
  | .error err => (r, .ret (some err))
  | .ok preferredDERP =>
    if preferredDERP = 0 then
      let r1 := r.humanLogf
        ("Failed to determine overlay DERP region, defaulting to " ++ E.Code "NYC" ++ ".")
      ({ r1 with derpRegionID := 1 }, .ret none)
    else
      match r.DerpMap.lookup preferredDERP with
      | none => (r, .panicked "runtime error: invalid memory address or nil pointer dereference")
      | some region =>
        let r1 := r.humanLogf
          ("Picked DERP region " ++ E.Code region.RegionName ++ " as overlay home")
        ({ r1 with derpRegionID := toUint16 preferredDERP }, .ret none)

/-- The function `Receive.ClientAuth`. -/
def Receive.ClientAuth (E : Env) (r : Receive) : ClientAuth :=
  { OverlayPrivateKey := r.PeerPriv
    ReceiverPublicKey := E.Public r.SelfPriv
    ReceiverStunAddr := r.stunIP
    ReceiverDERPRegionID := r.derpRegionID }

/-- The region getter `ListenOverlayDERP` hands to `derphttp.NewRegionClient`:
`r.DerpMap.Regions[int(r.derpRegionID)]`, `none` being the nil region. -/
def Receive.derpHomeRegion (r : Receive) : Option DERPRegion :=
  r.DerpMap.lookup (r.derpRegionID : Int)

/-- The function `Receive.Recv`: the inbound channel itself. -/
def Receive.Recv (r : Receive) : List Node := r.in_

/-- The function `Receive.Send`: the outbound channel itself. -/
def Receive.Send (r : Receive) : List (Option Node) := r.out

/-! ## `handleNextMessage` -/

/-- What `handleNextMessage` returns: `(resRaw, nodeKey, err)`, `none` being `nil`. -/
structure HandlerResult where
  resRaw : Option Bytes
  nodeKey : NodePublic
  err : Option String
  deriving DecidableEq, Repr

/-- The `switch ovMsg.Typ` of `handleNextMessage`: the state it leaves and the reply
`res` it builds, or `none` when the push on `r.in` blocks. -/
def handleSwitch (E : Env) (r : Receive) (now : String) (ovMsg : overlayMessage)
    (system : String) : Receive × Option overlayMessage :=
  let res := overlayMessage.zero
  if ovMsg.Typ = messageTypePing then
    (r, some { res with Typ := messageTypePong })
  else if ovMsg.Typ = messageTypePong then
    (r, some res)
  else if ovMsg.Typ = messageTypeHello then
    let res := { res with Typ := messageTypeHelloResponse }
    let username := if ovMsg.HostInfo.Username ≠ "" then ovMsg.HostInfo.Username else "unknown"
    let hostname := if ovMsg.HostInfo.Hostname ≠ "" then ovMsg.HostInfo.Hostname else "unknown"
    let res := match r.lastNode with
      | some lastNode => { res with Node := lastNode }
      | none => res
    let r1 := r.humanLogf (now ++ " Received connection request over " ++ system ++ " from "
      ++ E.Keyword (username ++ "@" ++ hostname))
    (r1, some res)
  else if ovMsg.Typ = messageTypeNodeUpdate then
    let r1 := r.log ("received updated node node_key=" ++ E.NodeKeyString ovMsg.Node.Key)
    match chanSend chanCap r1.in_ ovMsg.Node with
    | none => (r1, none)
    | some buf =>
      let r2 := { r1 with in_ := buf }
      let res := { res with Typ := messageTypeNodeUpdate }
      let res := match r2.lastNode with
        | some lastNode => { res with Node := lastNode }
        | none => res
      (r2, some res)
  else
    (r, some res)

/-- The function `Receive.handleNextMessage`. `now` is the rendered
`cliui.Timestamp(time.Now())` and `nonce` the randomness `SealTo` draws. -/
def Receive.handleNextMessage (E : Env) (r : Receive) (now : String) (nonce : Bytes)
    (msg : Bytes) (system : String) : Receive × Outcome HandlerResult :=
  match E.OpenFrom r.SelfPriv (E.Public r.PeerPriv) msg with
  | none => (r, .ret ⟨none, NodePublic.zero, some "message failed decryption"⟩)
  | some cleartext =>
    match E.Unmarshal cleartext with
    | .error err => (r, .panicked ("unmarshal node: " ++ err))
    | .ok ovMsg =>
      match handleSwitch E r now ovMsg system with
      | (r1, none) => (r1, .blocked)
      | (r1, some res) =>
        if res.Typ = 0 then
          (r1, .ret ⟨none, ovMsg.Node.Key, none⟩)
        else
          match E.Marshal res with
          | .error err => (r1, .panicked ("marshal node: " ++ err))
          | .ok raw =>
            let sealed := E.SealTo r1.SelfPriv (E.Public r1.PeerPriv) nonce raw
            (r1, .ret ⟨some sealed, ovMsg.Node.Key, none⟩)

/-! ## The peer address table -/

/-- The peer address table (`xsync.MapOf`): an association list with one entry per
key, in the order `Range` visits them. -/
abbrev PeerTable (V : Type) := List (NodePublic × V)

/-- The method `MapOf.Store`: overwrite the entry of the key, or add one. Where a new
key lands in the order of `Range` is the business of the map's hashing; here it
comes last, and what is proved of a table after a `Store` is stated on its
entries, not on their order. -/
def PeerTable.Store {V : Type} : PeerTable V → NodePublic → V → PeerTable V
  | [], key, v => [(key, v)]
  | (k, w) :: rest, key, v =>
    if k = key then (key, v) :: rest else (k, w) :: PeerTable.Store rest key v

/-- The method `MapOf.Load`. -/
def PeerTable.Load {V : Type} : PeerTable V → NodePublic → Option V
  | [], _ => none
  | (k, w) :: rest, key => if k = key then some w else PeerTable.Load rest key

/-- The method `MapOf.Range`: call `f` on each entry in turn, until it returns
`false`. -/
def PeerTable.Range {V σ : Type} (f : σ → NodePublic → V → σ × Bool) :
    PeerTable V → σ → σ
  | [], s => s
  | (k, v) :: rest, s =>
    match f s k v with
    | (s1, true) => PeerTable.Range f rest s1
    | (s1, false) => s1

/-! ## `ListenOverlaySTUN` -/

/-- The UDP socket `conn`: every datagram handed to `WriteToUDPAddrPort` so far, as
destination and payload, in order. -/
structure UDPConn where
  writes : List (AddrPort × Bytes)
  deriving DecidableEq, Repr

/-- The method `UDPConn.WriteToUDPAddrPort`. `wErr i` is the error of the write
number `i` on the socket (`none` is `nil`). -/
def UDPConn.WriteToUDPAddrPort (wErr : Nat → Option String) (conn : UDPConn) (b : Bytes)
    (addr : AddrPort) : UDPConn × Option String :=
  ({ writes := conn.writes ++ [(addr, b)] }, wErr conn.writes.length)

/-- Where a goroutine loop stands. -/
inductive LoopStatus where
  | running
  | exited
  | panicked (msg : String)
  | blocked
  deriving DecidableEq, Repr

/-- What the goroutines of `ListenOverlaySTUN` share. `ipChanCloses` counts the
executions of `close(ipChan)` (a second one would panic) and `closeIPChanOnce` is
the done flag of the `sync.Once`. -/
structure StunState where
  r : Receive
  peers : PeerTable AddrPort
  conn : UDPConn
  ipChanCloses : Nat
  closeIPChanOnce : Bool
  deriving DecidableEq, Repr

/-- The channel `ipChan` is closed. -/
def StunState.ipChanClosed (s : StunState) : Bool := decide (0 < s.ipChanCloses)

/-- The state when the goroutines of `ListenOverlaySTUN` start. -/
def StunState.init (r : Receive) : StunState :=
  { r := r, peers := [], conn := ⟨[]⟩, ipChanCloses := 0, closeIPChanOnce := false }

/-- The callback the discovery broadcaster passes to `peers.Range`. -/
def stunSendOne (wErr : Nat → Option String) (now : String) (sealed : Bytes)
    (s : Receive × UDPConn) (_k : NodePublic) (addr : AddrPort) : (Receive × UDPConn) × Bool :=
  match s.2.WriteToUDPAddrPort wErr sealed addr with
  | (conn1, some err) =>
    ((s.1.humanLogf (now ++ " Failed to send updated node over udp: " ++ err), conn1), false)
  | (conn1, none) => ((s.1, conn1), true)

/-- One iteration of the broadcaster goroutine of `ListenOverlaySTUN`, on the case
`node := <-r.out` of its `select`. -/
def stunBroadcastStep (E : Env) (wErr : Nat → Option String) (s : StunState) (now : String)
    (nonce : Bytes) : StunState × LoopStatus :=
  match s.r.out with
  | [] => (s, .blocked)
  | node :: rest =>
    let r1 := { s.r with out := rest, lastNode := node }
    match node with
    | none => ({ s with r := r1 },
        .panicked "runtime error: invalid memory address or nil pointer dereference")
    | some n =>
      match E.Marshal { overlayMessage.zero with Typ := messageTypeNodeUpdate, Node := n } with
      | .error err => ({ s with r := r1 }, .panicked ("marshal node: " ++ err))
      | .ok raw =>
        let sealed := E.SealTo r1.SelfPriv (E.Public r1.PeerPriv) nonce raw
        let (r2, conn2) := PeerTable.Range (stunSendOne wErr now sealed) s.peers (r1, s.conn)
        ({ s with r := r2, conn := conn2 }, .running)

/-- The length `4<<10` of the buffer the discovery receiver reads into. -/
def udpBufLen : Nat := 4 <<< 10

/-- What `conn.ReadFromUDPAddrPort` returns: an error, or a datagram and its source. -/
inductive UDPRead where
  | err (e : String)
  | data (datagram : Bytes) (addr : AddrPort)
  deriving DecidableEq, Repr

/-- The call `closeIPChanOnce.Do(func() { close(ipChan) })`. -/
def StunState.closeOnce (s : StunState) : StunState :=
  if s.closeIPChanOnce then s
  else { s with closeIPChanOnce := true, ipChanCloses := s.ipChanCloses + 1 }

/-- One iteration of the receiver goroutine of `ListenOverlaySTUN`. The buffer holds
`udpBufLen` bytes, so a longer datagram is cut. -/
def stunRecvStep (E : Env) (wErr : Nat → Option String) (s : StunState) (now : String)
    (nonce : Bytes) (ev : UDPRead) : StunState × LoopStatus :=
  match ev with
  | .err e => ({ s with r := s.r.log ("read from STUN; exiting err=" ++ e) }, .exited)
  | .data datagram addr =>
    let buf := datagram.take udpBufLen
    if E.StunIsMessage buf then
      match E.StunDecode buf with
      | .error e => ({ s with r := s.r.log ("decode STUN message; exiting err=" ++ e) }, .exited)
      | .ok m =>
        match E.XorGetFrom m with
        | .error e =>
          ({ s with r := s.r.log ("decode STUN xor mapped addr; exiting err=" ++ e) }, .exited)
        | .ok xorAddr =>
          match AddrFromSlice xorAddr.IP with
          | (_, false) =>
            ({ s with r := s.r.log ("convert STUN xor mapped addr ip=" ++ E.IPString xorAddr.IP) },
              .running)
          | (stunAddr, true) =>
            let stunAddrPort := AddrPortFrom stunAddr (toUint16 xorAddr.Port)
            let r1 := if !s.r.stunIP.IsValid then
                s.r.humanLogf ("STUN address is " ++ E.Code (E.AddrPortString stunAddrPort))
              else s.r
            let r2 := if r1.stunIP.IsValid && r1.stunIP.Compare stunAddrPort ≠ 0 then
                r1.humanLogf (E.Warn ("STUN address changed, this may cause issues; "
                  ++ E.AddrPortString r1.stunIP ++ "->" ++ E.AddrPortString stunAddrPort))
              else r1
            let r3 := { r2 with stunIP := stunAddrPort }
            (({ s with r := r3 }).closeOnce, .running)
    else
      match s.r.handleNextMessage E now nonce buf "STUN" with
      | (r1, .blocked) => ({ s with r := r1 }, .blocked)
      | (r1, .panicked p) => ({ s with r := r1 }, .panicked p)
      | (r1, .ret ⟨_, _, some err⟩) =>
        ({ s with r := r1.humanLogf ("Failed to handle overlay message: " ++ err) }, .running)
      | (r1, .ret ⟨res, key, none⟩) =>
        let s1 := { s with r := r1, peers := PeerTable.Store s.peers key addr }
        match res with
        | none => (s1, .running)
        | some res =>
          match s1.conn.WriteToUDPAddrPort wErr res addr with
          | (conn1, some err) =>
            ({ s1 with conn := conn1,
                       r := s1.r.humanLogf ("Failed to send overlay response over STUN: " ++ err) },
              .exited)
          | (conn1, none) => ({ s1 with conn := conn1 }, .running)

/-- One input of the receiver goroutine: what the read returns, with the clock and
the randomness of that iteration. -/
structure StunInput where
  ev : UDPRead
  now : String
  nonce : Bytes
  deriving DecidableEq, Repr

/-- The receiver goroutine of `ListenOverlaySTUN` on a sequence of reads: iterate
while the loop is running; the second component is the number of reads taken. -/
def stunRecvRun (E : Env) (wErr : Nat → Option String) :
    StunState → List StunInput → StunState × LoopStatus × Nat
  | s, [] => (s, .running, 0)
  | s, i :: rest =>
    match stunRecvStep E wErr s i.now i.nonce i.ev with
    | (s1, .running) =>
      let (s2, st, n) := stunRecvRun E wErr s1 rest
      (s2, st, n + 1)
    | (s1, st) => (s1, st, 1)

/-- A read is a discovery-service response whose XOR-mapped address was decoded and
converted. -/
def validStunResponse (E : Env) (ev : UDPRead) : Bool :=
  match ev with
  | .err _ => false
  | .data datagram _ =>
    let buf := datagram.take udpBufLen
    E.StunIsMessage buf &&
      match E.StunDecode buf with
      | .error _ => false
      | .ok m =>
        match E.XorGetFrom m with
        | .error _ => false
        | .ok xorAddr => (AddrFromSlice xorAddr.IP).2

/-! ## `ListenOverlayDERP` -/

/-- The relay client `c`: every packet handed to `Send` so far, as destination and
payload, in order. -/
structure DerpClient where
  sends : List (NodePublic × Bytes)
  deriving DecidableEq, Repr

/-- The method `derphttp.Client.Send`. `sErr i` is the error of the send number `i`
on the client (`none` is `nil`). -/
def DerpClient.Send (sErr : Nat → Option String) (c : DerpClient) (dst : NodePublic)
    (b : Bytes) : DerpClient × Option String :=
  ({ sends := c.sends ++ [(dst, b)] }, sErr c.sends.length)

/-- What the goroutines of `ListenOverlayDERP` share. -/
structure DerpState where
  r : Receive
  peers : PeerTable NodePublic
  c : DerpClient
  deriving DecidableEq, Repr

/-- The state when the loops of `ListenOverlayDERP` start. -/
def DerpState.init (r : Receive) : DerpState :=
  { r := r, peers := [], c := ⟨[]⟩ }

/-- The callback the relay broadcaster passes to `peers.Range`. -/
def derpSendOne (sErr : Nat → Option String) (sealed : Bytes)
    (s : Receive × DerpClient) (_k : NodePublic) (derpKey : NodePublic) :
    (Receive × DerpClient) × Bool :=
  match s.2.Send sErr derpKey sealed with
  | (c1, some err) => ((s.1.humanLogf ("Send updated node over DERP: " ++ err), c1), false)
  | (c1, none) => ((s.1, c1), true)

/-- One iteration of the broadcaster goroutine of `ListenOverlayDERP`, on the case
`node := <-r.out` of its `select`. -/
def derpBroadcastStep (E : Env) (sErr : Nat → Option String) (s : DerpState)
    (nonce : Bytes) : DerpState × LoopStatus :=
  match s.r.out with
  | [] => (s, .blocked)
  | node :: rest =>
    let r1 := { s.r with out := rest, lastNode := node }
    match node with
    | none => ({ s with r := r1 },
        .panicked "runtime error: invalid memory address or nil pointer dereference")
    | some n =>
      match E.Marshal { overlayMessage.zero with Typ := messageTypeNodeUpdate, Node := n } with
      | .error err => ({ s with r := r1 }, .panicked ("marshal node: " ++ err))
      | .ok raw =>
        let sealed := E.SealTo r1.SelfPriv (E.Public r1.PeerPriv) nonce raw
        let (r2, c2) := PeerTable.Range (derpSendOne sErr sealed) s.peers (r1, s.c)
        ({ s with r := r2, c := c2 }, .running)

/-- What `c.Recv()` returns: an error, a `derp.ReceivedPacket`, or a message of
another type. -/
inductive DerpRecv where
  | err (e : String)
  | packet (Source : NodePublic) (Data : Bytes)
  | other
  deriving DecidableEq, Repr

/-- One iteration of the receive loop of `ListenOverlayDERP`; `.exited` is the
`return err`. -/
def derpRecvStep (E : Env) (sErr : Nat → Option String) (s : DerpState) (now : String)
    (nonce : Bytes) (ev : DerpRecv) : DerpState × LoopStatus :=
  match ev with
  | .err _ => (s, .exited)
  | .other => (s, .running)
  | .packet source data =>
    match s.r.handleNextMessage E now nonce data "DERP" with
    | (r1, .blocked) => ({ s with r := r1 }, .blocked)
    | (r1, .panicked p) => ({ s with r := r1 }, .panicked p)
    | (r1, .ret ⟨_, _, some err⟩) =>
      ({ s with r := r1.humanLogf ("Failed to handle overlay message from "
          ++ E.NodeKeyShortString source ++ ": " ++ err) }, .running)
    | (r1, .ret ⟨res, key, none⟩) =>
      let s1 := { s with r := r1, peers := PeerTable.Store s.peers key source }
      match res with
      | none => (s1, .running)
      | some res =>
        match s1.c.Send sErr source res with
        | (c1, some err) =>
          ({ s1 with c := c1,
                     r := s1.r.humanLogf ("Failed to send overlay response over derp: " ++ err) },
            .exited)
        | (c1, none) => ({ s1 with c := c1 }, .running)

/-! ## A small instance of the libraries

A concrete `Env` on which the definitions evaluate: a box that tags the
cleartext with the two keys, and a length-prefixed codec. -/

/-- A string as its length followed by its characters. -/
def demoEncStr (s : String) : Bytes := s.length :: s.toList.map Char.toNat

/-- The string at the head of a byte slice, and the rest of the slice. -/
def demoDecStr : Bytes → String × Bytes
  | [] => ("", [])
  | n :: rest => (String.mk ((rest.take n).map Char.ofNat), rest.drop n)

/-- The demonstration codec, encoding. -/
def demoMarshal (m : overlayMessage) : Except String Bytes :=
  .ok ((if m.Typ < 0 then 1 else 0) :: m.Typ.natAbs :: m.Node.Key.k ::
    (demoEncStr m.HostInfo.Username ++ (demoEncStr m.HostInfo.Hostname ++ m.Node.Other)))

/-- The demonstration codec, decoding. -/
def demoUnmarshal : Bytes → Except String overlayMessage
  | sgn :: a :: k :: rest =>
    let u := demoDecStr rest
    let h := demoDecStr u.2
    .ok { Typ := if sgn = 1 then -(a : Int) else (a : Int)
          HostInfo := ⟨u.1, h.1⟩
          Node := ⟨⟨k⟩, h.2⟩ }
  | _ => .error "unexpected end of JSON input"

/-- The demonstration box, sealing: the cleartext behind a tag of the two keys. -/
def demoSealTo (priv : NodePrivate) (pub : NodePublic) (_nonce : Bytes) (clear : Bytes) : Bytes :=
  (priv.k + pub.k) :: clear

/-- The demonstration box, opening: the tag has to be that of the two keys. -/
def demoOpenFrom (priv : NodePrivate) (pub : NodePublic) : Bytes → Option Bytes
  | [] => none
  | t :: clear => if t = priv.k + pub.k then some clear else none

/-- The demonstration libraries. A datagram is a discovery-service message when its
first byte is 0; its payload is then the address bytes, followed by nothing else,
and the port is 3478. -/
def demoEnv : Env where
  Public := fun p => ⟨p.k⟩
  SealTo := demoSealTo
  OpenFrom := demoOpenFrom
  Marshal := demoMarshal
  Unmarshal := demoUnmarshal
  StunIsMessage := fun b => b.head? == some 0
  StunDecode := fun b => if b.length < 2 then .error "unexpected EOF" else .ok ⟨b⟩
  XorGetFrom := fun m => .ok ⟨m.Raw.drop 1, 3478⟩
  Code := fun s => s
  Keyword := fun s => s
  Warn := fun s => s
  AddrPortString := fun _ => "addr"
  IPString := fun _ => "ip"
  NodeKeyString := fun _ => "nodekey"
  NodeKeyShortString := fun _ => "[nodekey]"

/-- A receiver with keys 11 and 22, a relay map of regions 7 and 65543, and nothing
received or sent yet. -/
def demoReceive : Receive :=
  NewReceiveOverlay ⟨[(7, ⟨7, "fra"⟩), (65543, ⟨65543, "far"⟩)]⟩ ⟨11⟩ ⟨22⟩

/-- A node descriptor with key `k`. -/
def demoNode (k : Nat) : Node := ⟨⟨k⟩, [k, k]⟩

/-- An overlay message as the peer seals it for `demoReceive`. -/
def demoSealed (m : overlayMessage) : Bytes :=
  match demoMarshal m with
  | .ok raw => demoSealTo ⟨11⟩ ⟨22⟩ [] raw
  | .error _ => []

/-- The cleartext of an overlay message under the demonstration codec. -/
def demoClear (m : overlayMessage) : Bytes :=
  match demoMarshal m with
  | .ok raw => raw
  | .error _ => []

/-- A ping of the peer with node key 5. -/
def demoPing : overlayMessage := ⟨messageTypePing, ⟨"", ""⟩, demoNode 5⟩

/-- A pong of the peer with node key 5. -/
def demoPong : overlayMessage := ⟨messageTypePong, ⟨"", ""⟩, demoNode 5⟩

/-- A hello of alice@box, which carries no node. -/
def demoHello : overlayMessage := ⟨messageTypeHello, ⟨"alice", "box"⟩, Node.zero⟩

/-- A node update of the peer with node key 5. -/
def demoUpdate : overlayMessage := ⟨messageTypeNodeUpdate, ⟨"", ""⟩, demoNode 5⟩

/-- A receiver whose relay map holds the regions 65543 and 65536 only. -/
def demoReceiveFar : Receive :=
  NewReceiveOverlay ⟨[(65543, ⟨65543, "far"⟩), (65536, ⟨65536, "edge"⟩)]⟩ ⟨11⟩ ⟨22⟩

/-- The receiver `demoReceive` with eight descriptors waiting on its inbound channel. -/
def demoReceiveFull : Receive :=
  { demoReceive with in_ := List.replicate 8 (demoNode 9) }

/-- The peer address 192.0.2.`n`, port 4000. -/
def demoAddr (n : Nat) : AddrPort := ⟨.v4 [192, 0, 2, n], 4000⟩

/-- The discovery channel of `demoReceive` with two peers in the table, at
192.0.2.1 and 192.0.2.2, and the node with key 1 waiting on the outbound channel. -/
def demoStun : StunState :=
  { StunState.init { demoReceive with out := [some (demoNode 1)] } with
    peers := [(⟨5⟩, demoAddr 1), (⟨6⟩, demoAddr 2)] }

/-- The relay channel of `demoReceive` with two peers in the table, reached as 71
and 72, and the node with key 1 waiting on the outbound channel. -/
def demoDerp : DerpState :=
  { DerpState.init { demoReceive with out := [some (demoNode 1)] } with
    peers := [(⟨5⟩, ⟨71⟩), (⟨6⟩, ⟨72⟩)] }

/-- A discovery-service response carrying the address 203.0.113.9. -/
def demoStunResponse : Bytes := [0, 203, 0, 113, 9]

/-- A discovery-service response whose address has five bytes and does not convert. -/
def demoStunBadAddr : Bytes := [0, 203, 0, 113, 9, 9]

/-- Reads of the discovery receiver: a ping, a response that does not convert, an
undecryptable datagram, two valid responses. -/
def demoReads : List StunInput :=
  [⟨.data (demoSealed demoPing) (demoAddr 1), "12:00", []⟩,
   ⟨.data demoStunBadAddr (demoAddr 3), "12:01", []⟩,
   ⟨.data [99, 1, 2, 3] (demoAddr 4), "12:02", []⟩,
   ⟨.data demoStunResponse (demoAddr 3), "12:03", []⟩,
   ⟨.data demoStunResponse (demoAddr 3), "12:04", []⟩]

/-- No write fails. -/
def demoNoErr : Nat → Option String := fun _ => none

/-- The first write fails, the later ones do not. -/
def demoFirstErr : Nat → Option String :=
  fun i => if i = 0 then some "network is unreachable" else none

end Overlay

namespace Overlay

/-! ## Lemmas on the demonstration libraries -/

theorem demoDecStr_encStr (s : String) (t : Bytes) :
    demoDecStr (demoEncStr s ++ t) = (s, t) := by
  have hlen : (List.map Char.toNat s.toList).length = s.length := by
    rw [List.length_map]; rfl
  have hmap : List.map Char.ofNat (List.map Char.toNat s.toList) = s.toList := by
    rw [List.map_map]
    conv_rhs => rw [← List.map_id s.toList]
    apply List.map_congr_left
    intro c _
    simp [Char.ofNat_toNat]
  simp only [demoEncStr, List.cons_append, demoDecStr]
  rw [← hlen, List.take_left, List.drop_left, hmap]
  rfl

theorem demoUnmarshal_marshal (m : overlayMessage) :
    ∃ raw, demoMarshal m = .ok raw ∧ demoUnmarshal raw = .ok m := by
  refine ⟨_, rfl, ?_⟩
  obtain ⟨typ, ⟨u, h⟩, ⟨⟨k⟩, other⟩⟩ := m
  simp only [demoUnmarshal, demoDecStr_encStr]
  have htyp : (if (if typ < 0 then 1 else 0 : Nat) = 1 then -(typ.natAbs : Int)
      else (typ.natAbs : Int)) = typ := by
    by_cases hneg : typ < 0
    · simp only [hneg, if_true]
      rw [← Int.abs_eq_natAbs, abs_of_neg hneg, neg_neg]
    · simp only [hneg, if_false]
      have h0 : (0 : Nat) = 1 ↔ False := by decide
      simp only [h0, if_false]
      rw [← Int.abs_eq_natAbs, abs_of_nonneg (not_lt.mp hneg)]
  simp only [htyp]

theorem demoEnv_lawful : demoEnv.Lawful where
  open_seal := by
    intro priv pub nonce clear
    simp [demoEnv, demoSealTo, demoOpenFrom]
  marshal_ok := fun typ node => demoUnmarshal_marshal ⟨typ, HostInfo.zero, node⟩

/-! ## Lemmas on `handleNextMessage` -/

theorem handleNextMessage_decoded (E : Env) (r : Receive) (now : String) (nonce msg : Bytes)
    (system : String) (clear : Bytes) (ovMsg : overlayMessage)
    (hopen : E.OpenFrom r.SelfPriv (E.Public r.PeerPriv) msg = some clear)
    (hdec : E.Unmarshal clear = .ok ovMsg) :
    r.handleNextMessage E now nonce msg system =
      match handleSwitch E r now ovMsg system with
      | (r1, none) => (r1, .blocked)
      | (r1, some res) =>
        if res.Typ = 0 then (r1, .ret ⟨none, ovMsg.Node.Key, none⟩)
        else
          match E.Marshal res with
          | .error err => (r1, .panicked ("marshal node: " ++ err))
          | .ok raw =>
            (r1, .ret ⟨some (E.SealTo r1.SelfPriv (E.Public r1.PeerPriv) nonce raw),
              ovMsg.Node.Key, none⟩) := by
  simp only [Receive.handleNextMessage, hopen, hdec]

theorem handleSwitch_ping (E : Env) (r : Receive) (now : String) (ovMsg : overlayMessage)
    (system : String) (htyp : ovMsg.Typ = messageTypePing) :
    handleSwitch E r now ovMsg system =
      (r, some { overlayMessage.zero with Typ := messageTypePong }) := by
  simp [handleSwitch, htyp]

theorem handleSwitch_pong (E : Env) (r : Receive) (now : String) (ovMsg : overlayMessage)
    (system : String) (htyp : ovMsg.Typ = messageTypePong) :
    handleSwitch E r now ovMsg system = (r, some overlayMessage.zero) := by
  simp [handleSwitch, htyp, messageTypePong, messageTypePing]

theorem handleSwitch_hello (E : Env) (r : Receive) (now : String) (ovMsg : overlayMessage)
    (system : String) (htyp : ovMsg.Typ = messageTypeHello) :
    handleSwitch E r now ovMsg system =
      (r.humanLogf (now ++ " Received connection request over " ++ system ++ " from "
          ++ E.Keyword ((if ovMsg.HostInfo.Username ≠ "" then ovMsg.HostInfo.Username
              else "unknown") ++ "@"
            ++ (if ovMsg.HostInfo.Hostname ≠ "" then ovMsg.HostInfo.Hostname else "unknown"))),
        some (match r.lastNode with
          | some lastNode =>
            { overlayMessage.zero with Typ := messageTypeHelloResponse, Node := lastNode }
          | none => { overlayMessage.zero with Typ := messageTypeHelloResponse })) := by
  simp [handleSwitch, htyp, messageTypeHello, messageTypePong, messageTypePing]

theorem handleSwitch_nodeUpdate (E : Env) (r : Receive) (now : String) (ovMsg : overlayMessage)
    (system : String) (htyp : ovMsg.Typ = messageTypeNodeUpdate) :
    handleSwitch E r now ovMsg system =
      match chanSend chanCap r.in_ ovMsg.Node with
      | none =>
        (r.log ("received updated node node_key=" ++ E.NodeKeyString ovMsg.Node.Key), none)
      | some buf =>
        ({ r.log ("received updated node node_key=" ++ E.NodeKeyString ovMsg.Node.Key) with
            in_ := buf },
          some (match r.lastNode with
            | some lastNode =>
              { overlayMessage.zero with Typ := messageTypeNodeUpdate, Node := lastNode }
            | none => { overlayMessage.zero with Typ := messageTypeNodeUpdate })) := by
  simp [handleSwitch, htyp, messageTypeNodeUpdate, messageTypeHello, messageTypePong,
    messageTypePing, Receive.log]

/-- A message without hello metadata marshals, and sealed by the receiver it opens
under the fixed pair and decodes to itself. -/
theorem reply_opens_decodes (E : Env) (hlaw : E.Lawful) (r : Receive) (nonce : Bytes)
    (res : overlayMessage) (hres : res.HostInfo = HostInfo.zero) :
    ∃ raw, E.Marshal res = .ok raw ∧
      E.OpenFrom r.SelfPriv (E.Public r.PeerPriv)
        (E.SealTo r.SelfPriv (E.Public r.PeerPriv) nonce raw) = some raw ∧
      E.Unmarshal raw = .ok res := by
  obtain ⟨typ, hi, node⟩ := res
  simp only at hres
  subst hres
  obtain ⟨raw, hm, hu⟩ := hlaw.marshal_ok typ node
  exact ⟨raw, hm, hlaw.open_seal _ _ _ _, hu⟩

/-! ## The claims on `handleNextMessage` -/

/-- C1: a message that does not open under the fixed pair makes `handleNextMessage`
return the error "message failed decryption" with a nil reply and the zero node
key, in the state it was called in (nothing pushed on the inbound channel,
`lastNode` unchanged, nothing logged); and the iteration of either receive loop
that reads it leaves the peer address table as it was. -/
theorem handleNextMessage_failed_decryption (E : Env) (r : Receive) (now : String)
    (nonce msg : Bytes) (system : String)
    (hfail : E.OpenFrom r.SelfPriv (E.Public r.PeerPriv) msg = none) :
    r.handleNextMessage E now nonce msg system
        = (r, .ret ⟨none, NodePublic.zero, some "message failed decryption"⟩) ∧
      (∀ (wErr : Nat → Option String) (s : StunState) (datagram : Bytes) (addr : AddrPort),
        s.r = r → datagram.take udpBufLen = msg →
          (stunRecvStep E wErr s now nonce (.data datagram addr)).1.peers = s.peers) ∧
      (∀ (sErr : Nat → Option String) (s : DerpState) (source : NodePublic),
        s.r = r → (derpRecvStep E sErr s now nonce (.packet source msg)).1.peers = s.peers) := by
  have hh : ∀ sys, r.handleNextMessage E now nonce msg sys
      = (r, .ret ⟨none, NodePublic.zero, some "message failed decryption"⟩) := by
    intro sys
    simp only [Receive.handleNextMessage, hfail]
  refine ⟨hh system, ?_, ?_⟩
  · intro wErr s datagram addr hr hbuf
    subst hr
    simp only [stunRecvStep, hbuf]
    split
    · split
      · rfl
      · split
        · rfl
        · split
          · rfl
          · simp only [StunState.closeOnce]
            split <;> rfl
    · rw [hh "STUN"]
  · intro sErr s source hr
    subst hr
    simp only [derpRecvStep]
    rw [hh "DERP"]

/-- C1, at a concrete input: a datagram with the wrong tag. -/
theorem handleNextMessage_failed_decryption_witness :
    demoReceive.handleNextMessage demoEnv "12:00" [] [99, 1, 2, 3] "STUN"
        = (demoReceive, .ret ⟨none, NodePublic.zero, some "message failed decryption"⟩) ∧
      (∀ (wErr : Nat → Option String) (s : StunState) (datagram : Bytes) (addr : AddrPort),
        s.r = demoReceive → datagram.take udpBufLen = [99, 1, 2, 3] →
          (stunRecvStep demoEnv wErr s "12:00" [] (.data datagram addr)).1.peers = s.peers) ∧
      (∀ (sErr : Nat → Option String) (s : DerpState) (source : NodePublic),
        s.r = demoReceive →
          (derpRecvStep demoEnv sErr s "12:00" [] (.packet source [99, 1, 2, 3])).1.peers
            = s.peers) :=
  handleNextMessage_failed_decryption demoEnv demoReceive "12:00" [] [99, 1, 2, 3] "STUN" rfl

/-- C2: a message that opens and decodes to a ping makes `handleNextMessage` return
no error and one reply, which opens under the same fixed pair and decodes to a
pong; a message that opens and decodes to a pong, that reply among them, makes it
return no error and a nil reply. In both cases the receiver is left as it was:
inbound channel, `lastNode` and everything else. -/
theorem handleNextMessage_ping_pong (E : Env) (hlaw : E.Lawful) (r : Receive) (now : String)
    (nonce : Bytes) (system : String)
    (msg clear : Bytes) (ovMsg : overlayMessage)
    (hopen : E.OpenFrom r.SelfPriv (E.Public r.PeerPriv) msg = some clear)
    (hdec : E.Unmarshal clear = .ok ovMsg) (htyp : ovMsg.Typ = messageTypePing)
    (msg2 clear2 : Bytes) (ovMsg2 : overlayMessage)
    (hopen2 : E.OpenFrom r.SelfPriv (E.Public r.PeerPriv) msg2 = some clear2)
    (hdec2 : E.Unmarshal clear2 = .ok ovMsg2) (htyp2 : ovMsg2.Typ = messageTypePong) :
    (∃ reply, r.handleNextMessage E now nonce msg system
          = (r, .ret ⟨some reply, ovMsg.Node.Key, none⟩) ∧
        ∃ clearR mR, E.OpenFrom r.SelfPriv (E.Public r.PeerPriv) reply = some clearR ∧
          E.Unmarshal clearR = .ok mR ∧ mR.Typ = messageTypePong ∧
          r.handleNextMessage E now nonce reply system
            = (r, .ret ⟨none, mR.Node.Key, none⟩)) ∧
      r.handleNextMessage E now nonce msg2 system
        = (r, .ret ⟨none, ovMsg2.Node.Key, none⟩) := by
  have hpong : ∀ (m c : Bytes) (ov : overlayMessage),
      E.OpenFrom r.SelfPriv (E.Public r.PeerPriv) m = some c → E.Unmarshal c = .ok ov →
      ov.Typ = messageTypePong →
      r.handleNextMessage E now nonce m system = (r, .ret ⟨none, ov.Node.Key, none⟩) := by
    intro m c ov ho hd ht
    rw [handleNextMessage_decoded E r now nonce m system c ov ho hd,
      handleSwitch_pong E r now ov system ht]
    simp [overlayMessage.zero]
  refine ⟨?_, hpong msg2 clear2 ovMsg2 hopen2 hdec2 htyp2⟩
  obtain ⟨raw, hm, ho, hu⟩ := reply_opens_decodes E hlaw r nonce
    { overlayMessage.zero with Typ := messageTypePong } rfl
  refine ⟨E.SealTo r.SelfPriv (E.Public r.PeerPriv) nonce raw, ?_, raw, _, ho, hu, rfl, ?_⟩
  · rw [handleNextMessage_decoded E r now nonce msg system clear ovMsg hopen hdec,
      handleSwitch_ping E r now ovMsg system htyp]
    have hm2 : E.Marshal { Typ := 2, HostInfo := HostInfo.zero, Node := Node.zero }
        = .ok raw := hm
    simp [overlayMessage.zero, messageTypePong, hm2]
  · exact hpong _ raw _ ho hu rfl

/-- C2, at a concrete input: the ping and the pong of the peer with node key 5. -/
theorem handleNextMessage_ping_pong_witness :
    (∃ reply, demoReceive.handleNextMessage demoEnv "12:00" [] (demoSealed demoPing) "STUN"
          = (demoReceive, .ret ⟨some reply, demoPing.Node.Key, none⟩) ∧
        ∃ clearR mR,
          demoEnv.OpenFrom demoReceive.SelfPriv (demoEnv.Public demoReceive.PeerPriv) reply
            = some clearR ∧
          demoEnv.Unmarshal clearR = .ok mR ∧ mR.Typ = messageTypePong ∧
          demoReceive.handleNextMessage demoEnv "12:00" [] reply "STUN"
            = (demoReceive, .ret ⟨none, mR.Node.Key, none⟩)) ∧
      demoReceive.handleNextMessage demoEnv "12:00" [] (demoSealed demoPong) "STUN"
        = (demoReceive, .ret ⟨none, demoPong.Node.Key, none⟩) :=
  handleNextMessage_ping_pong demoEnv demoEnv_lawful demoReceive "12:00" [] "STUN"
    (demoSealed demoPing) (demoClear demoPing) demoPing rfl rfl rfl
    (demoSealed demoPong) (demoClear demoPong) demoPong rfl rfl rfl

/-- C3, as stated, fails on a full inbound channel: with eight descriptors waiting,
a node update that opens and decodes makes `handleNextMessage` block at the push;
nothing is appended and no reply is returned. -/
theorem handleNextMessage_nodeUpdate_full_blocks :
    demoEnv.OpenFrom demoReceiveFull.SelfPriv (demoEnv.Public demoReceiveFull.PeerPriv)
        (demoSealed demoUpdate) = some (demoClear demoUpdate) ∧
      demoEnv.Unmarshal (demoClear demoUpdate) = .ok demoUpdate ∧
      demoUpdate.Typ = messageTypeNodeUpdate ∧
      (demoReceiveFull.handleNextMessage demoEnv "12:00" [] (demoSealed demoUpdate) "STUN").2
        = .blocked ∧
      (demoReceiveFull.handleNextMessage demoEnv "12:00" [] (demoSealed demoUpdate) "STUN").1.Recv
        = demoReceiveFull.Recv ∧
      (demoReceiveFull.handleNextMessage demoEnv "12:00" [] (demoSealed demoUpdate) "STUN").1.Recv
        ≠ demoReceiveFull.Recv ++ [demoUpdate.Node] := by
  refine ⟨rfl, rfl, rfl, ?_, ?_, ?_⟩ <;> decide

/-- C3, amended: a message that opens and decodes to a node update carrying `n`,
handled while the inbound channel has room (fewer than 8 descriptors waiting),
appends exactly `n` to the inbound channel read through `Recv()` and returns a
reply that opens and decodes to a node update whose node is `lastNode` when one is
stored and the zero node otherwise; `lastNode` is not modified. On a full channel
the handler blocks at the push, with the channel and `lastNode` as they were. -/
theorem handleNextMessage_nodeUpdate (E : Env) (hlaw : E.Lawful) (r : Receive) (now : String)
    (nonce : Bytes) (system : String) (msg clear : Bytes) (ovMsg : overlayMessage)
    (hopen : E.OpenFrom r.SelfPriv (E.Public r.PeerPriv) msg = some clear)
    (hdec : E.Unmarshal clear = .ok ovMsg) (htyp : ovMsg.Typ = messageTypeNodeUpdate) :
    (r.Recv.length < chanCap →
      ∃ reply r1, r.handleNextMessage E now nonce msg system
          = (r1, .ret ⟨some reply, ovMsg.Node.Key, none⟩) ∧
        r1.Recv = r.Recv ++ [ovMsg.Node] ∧ r1.lastNode = r.lastNode ∧
        ∃ clearR mR, E.OpenFrom r.SelfPriv (E.Public r.PeerPriv) reply = some clearR ∧
          E.Unmarshal clearR = .ok mR ∧ mR.Typ = messageTypeNodeUpdate ∧
          mR.Node = (match r.lastNode with
            | some lastNode => lastNode
            | none => Node.zero)) ∧
      (chanCap ≤ r.Recv.length →
        ∃ r1, r.handleNextMessage E now nonce msg system = (r1, .blocked) ∧
          r1.Recv = r.Recv ∧ r1.lastNode = r.lastNode) := by
  rw [handleNextMessage_decoded E r now nonce msg system clear ovMsg hopen hdec,
    handleSwitch_nodeUpdate E r now ovMsg system htyp]
  constructor
  · intro hroom
    have hsend : chanSend chanCap r.in_ ovMsg.Node = some (r.in_ ++ [ovMsg.Node]) := by
      exact if_pos hroom
    rw [hsend]
    cases hl : r.lastNode with
    | none =>
      obtain ⟨raw, hm, ho, hu⟩ := reply_opens_decodes E hlaw r nonce
        { overlayMessage.zero with Typ := messageTypeNodeUpdate } rfl
      have hm2 : E.Marshal { Typ := 5, HostInfo := HostInfo.zero, Node := Node.zero }
          = .ok raw := hm
      simp only [overlayMessage.zero, messageTypeNodeUpdate, hm2, Receive.log]
      exact ⟨_, _, rfl, rfl, hl, raw, _, ho, hu, rfl, rfl⟩
    | some ln =>
      obtain ⟨raw, hm, ho, hu⟩ := reply_opens_decodes E hlaw r nonce
        { overlayMessage.zero with Typ := messageTypeNodeUpdate, Node := ln } rfl
      have hm2 : E.Marshal { Typ := 5, HostInfo := HostInfo.zero, Node := ln }
          = .ok raw := hm
      simp only [overlayMessage.zero, messageTypeNodeUpdate, hm2, Receive.log]
      exact ⟨_, _, rfl, rfl, hl, raw, _, ho, hu, rfl, rfl⟩
  · intro hfull
    have hsend : chanSend chanCap r.in_ ovMsg.Node = none := by
      exact if_neg (not_lt.mpr hfull)
    rw [hsend]
    exact ⟨_, rfl, rfl, rfl⟩

/-- C3, amended, at a concrete input: a node update of the peer with node key 5,
on an empty inbound channel. -/
theorem handleNextMessage_nodeUpdate_witness :
    (demoReceive.Recv.length < chanCap →
      ∃ reply r1, demoReceive.handleNextMessage demoEnv "12:00" [] (demoSealed demoUpdate) "STUN"
          = (r1, .ret ⟨some reply, demoUpdate.Node.Key, none⟩) ∧
        r1.Recv = demoReceive.Recv ++ [demoUpdate.Node] ∧ r1.lastNode = demoReceive.lastNode ∧
        ∃ clearR mR,
          demoEnv.OpenFrom demoReceive.SelfPriv (demoEnv.Public demoReceive.PeerPriv) reply
            = some clearR ∧
          demoEnv.Unmarshal clearR = .ok mR ∧ mR.Typ = messageTypeNodeUpdate ∧
          mR.Node = (match demoReceive.lastNode with
            | some lastNode => lastNode
            | none => Node.zero)) ∧
      (chanCap ≤ demoReceive.Recv.length →
        ∃ r1, demoReceive.handleNextMessage demoEnv "12:00" [] (demoSealed demoUpdate) "STUN"
            = (r1, .blocked) ∧
          r1.Recv = demoReceive.Recv ∧ r1.lastNode = demoReceive.lastNode) :=
  handleNextMessage_nodeUpdate demoEnv demoEnv_lawful demoReceive "12:00" [] "STUN"
    (demoSealed demoUpdate) (demoClear demoUpdate) demoUpdate rfl rfl rfl

/-- C4: a message that opens and decodes to a hello makes `handleNextMessage` return
a reply that opens and decodes to a hello-response whose node is `lastNode` when
one is stored and the zero node when no local update has been sent yet; the hello
is not pushed on the inbound channel and `lastNode` is not modified. -/
theorem handleNextMessage_hello (E : Env) (hlaw : E.Lawful) (r : Receive) (now : String)
    (nonce : Bytes) (system : String) (msg clear : Bytes) (ovMsg : overlayMessage)
    (hopen : E.OpenFrom r.SelfPriv (E.Public r.PeerPriv) msg = some clear)
    (hdec : E.Unmarshal clear = .ok ovMsg) (htyp : ovMsg.Typ = messageTypeHello) :
    ∃ reply r1, r.handleNextMessage E now nonce msg system
        = (r1, .ret ⟨some reply, ovMsg.Node.Key, none⟩) ∧
      r1.Recv = r.Recv ∧ r1.lastNode = r.lastNode ∧
      ∃ clearR mR, E.OpenFrom r.SelfPriv (E.Public r.PeerPriv) reply = some clearR ∧
        E.Unmarshal clearR = .ok mR ∧ mR.Typ = messageTypeHelloResponse ∧
        mR.Node = (match r.lastNode with
          | some lastNode => lastNode
          | none => Node.zero) := by
  rw [handleNextMessage_decoded E r now nonce msg system clear ovMsg hopen hdec,
    handleSwitch_hello E r now ovMsg system htyp]
  cases hl : r.lastNode with
  | none =>
    obtain ⟨raw, hm, ho, hu⟩ := reply_opens_decodes E hlaw r nonce
      { overlayMessage.zero with Typ := messageTypeHelloResponse } rfl
    have hm2 : E.Marshal { Typ := 4, HostInfo := HostInfo.zero, Node := Node.zero }
        = .ok raw := hm
    simp only [overlayMessage.zero, messageTypeHelloResponse, hm2, Receive.humanLogf]
    exact ⟨_, _, rfl, rfl, hl, raw, _, ho, hu, rfl, rfl⟩
  | some ln =>
    obtain ⟨raw, hm, ho, hu⟩ := reply_opens_decodes E hlaw r nonce
      { overlayMessage.zero with Typ := messageTypeHelloResponse, Node := ln } rfl
    have hm2 : E.Marshal { Typ := 4, HostInfo := HostInfo.zero, Node := ln }
        = .ok raw := hm
    simp only [overlayMessage.zero, messageTypeHelloResponse, hm2, Receive.humanLogf]
    exact ⟨_, _, rfl, rfl, hl, raw, _, ho, hu, rfl, rfl⟩

/-- C4, at a concrete input: the hello of alice@box, before any local update. -/
theorem handleNextMessage_hello_witness :
    ∃ reply r1, demoReceive.handleNextMessage demoEnv "12:00" [] (demoSealed demoHello) "DERP"
        = (r1, .ret ⟨some reply, demoHello.Node.Key, none⟩) ∧
      r1.Recv = demoReceive.Recv ∧ r1.lastNode = demoReceive.lastNode ∧
      ∃ clearR mR,
        demoEnv.OpenFrom demoReceive.SelfPriv (demoEnv.Public demoReceive.PeerPriv) reply
          = some clearR ∧
        demoEnv.Unmarshal clearR = .ok mR ∧ mR.Typ = messageTypeHelloResponse ∧
        mR.Node = (match demoReceive.lastNode with
          | some lastNode => lastNode
          | none => Node.zero) :=
  handleNextMessage_hello demoEnv demoEnv_lawful demoReceive "12:00" [] "DERP"
    (demoSealed demoHello) (demoClear demoHello) demoHello rfl rfl rfl

/-- C9: for a hello, the line `handleNextMessage` writes to the human log ends in the
identity username@hostname, each of the two being the field of the message when
it is not empty and "unknown" when it is: unknown@unknown for a hello with both
empty, alice@box for username "alice" and hostname "box". -/
theorem handleNextMessage_hello_logged (E : Env) (r : Receive) (now : String)
    (nonce : Bytes) (system : String) (msg clear : Bytes) (ovMsg : overlayMessage)
    (hopen : E.OpenFrom r.SelfPriv (E.Public r.PeerPriv) msg = some clear)
    (hdec : E.Unmarshal clear = .ok ovMsg) (htyp : ovMsg.Typ = messageTypeHello) :
    (r.handleNextMessage E now nonce msg system).1.HumanLogf
        = r.HumanLogf ++ [now ++ " Received connection request over " ++ system ++ " from "
          ++ E.Keyword ((if ovMsg.HostInfo.Username = "" then "unknown"
              else ovMsg.HostInfo.Username) ++ "@"
            ++ (if ovMsg.HostInfo.Hostname = "" then "unknown"
              else ovMsg.HostInfo.Hostname))] ∧
      (ovMsg.HostInfo.Username = "" → ovMsg.HostInfo.Hostname = "" →
        (r.handleNextMessage E now nonce msg system).1.HumanLogf
          = r.HumanLogf ++ [now ++ " Received connection request over " ++ system ++ " from "
            ++ E.Keyword "unknown@unknown"]) ∧
      (ovMsg.HostInfo.Username = "alice" → ovMsg.HostInfo.Hostname = "box" →
        (r.handleNextMessage E now nonce msg system).1.HumanLogf
          = r.HumanLogf ++ [now ++ " Received connection request over " ++ system ++ " from "
            ++ E.Keyword "alice@box"]) := by
  have hlog : (r.handleNextMessage E now nonce msg system).1.HumanLogf
      = r.HumanLogf ++ [now ++ " Received connection request over " ++ system ++ " from "
        ++ E.Keyword ((if ovMsg.HostInfo.Username = "" then "unknown"
            else ovMsg.HostInfo.Username) ++ "@"
          ++ (if ovMsg.HostInfo.Hostname = "" then "unknown"
            else ovMsg.HostInfo.Hostname))] := by
    rw [handleNextMessage_decoded E r now nonce msg system clear ovMsg hopen hdec,
      handleSwitch_hello E r now ovMsg system htyp]
    simp only [ne_eq, ite_not]
    split
    · rfl
    · split <;> rfl
  refine ⟨hlog, ?_, ?_⟩
  · intro hu hh
    rw [hlog, hu, hh]
    rfl
  · intro hu hh
    rw [hlog, hu, hh]
    rfl

/-- C9, at a concrete input: the hello of alice@box arriving over the relay. -/
theorem handleNextMessage_hello_logged_witness :
    (demoReceive.handleNextMessage demoEnv "12:00" [] (demoSealed demoHello) "DERP").1.HumanLogf
      = ["12:00 Received connection request over DERP from alice@box"] :=
  ((handleNextMessage_hello_logged demoEnv demoReceive "12:00" [] "DERP"
    (demoSealed demoHello) (demoClear demoHello) demoHello rfl rfl rfl).2.2 rfl rfl)

/-! ## The peer address table and the receive loops -/

theorem PeerTable.Load_Store_same {V : Type} (t : PeerTable V) (key : NodePublic) (v : V) :
    (t.Store key v).Load key = some v := by
  induction t with
  | nil => simp [PeerTable.Store, PeerTable.Load]
  | cons e rest ih =>
    obtain ⟨k, w⟩ := e
    by_cases hk : k = key
    · simp [PeerTable.Store, PeerTable.Load, hk]
    · simp [PeerTable.Store, PeerTable.Load, hk, ih]

theorem PeerTable.Load_Store_other {V : Type} (t : PeerTable V) (key k2 : NodePublic) (v : V)
    (hne : k2 ≠ key) : (t.Store key v).Load k2 = t.Load k2 := by
  induction t with
  | nil => simp [PeerTable.Store, PeerTable.Load, Ne.symm hne]
  | cons e rest ih =>
    obtain ⟨k, w⟩ := e
    by_cases hk : k = key
    · subst hk
      simp [PeerTable.Store, PeerTable.Load, Ne.symm hne]
    · by_cases hk2 : k = k2
      · subst hk2
        simp [PeerTable.Store, PeerTable.Load, hk]
      · simp [PeerTable.Store, PeerTable.Load, hk, hk2, ih]

/-- Whenever `handleNextMessage` returns on a message that opens and decodes, the key
it returns is the node key embedded in the message and the error is nil. -/
theorem handleNextMessage_ret_key (E : Env) (r : Receive) (now : String) (nonce msg : Bytes)
    (system : String) (clear : Bytes) (ovMsg : overlayMessage) (res : HandlerResult)
    (hopen : E.OpenFrom r.SelfPriv (E.Public r.PeerPriv) msg = some clear)
    (hdec : E.Unmarshal clear = .ok ovMsg)
    (hret : (r.handleNextMessage E now nonce msg system).2 = .ret res) :
    res.nodeKey = ovMsg.Node.Key ∧ res.err = none := by
  rw [handleNextMessage_decoded E r now nonce msg system clear ovMsg hopen hdec] at hret
  split at hret
  · simp at hret
  · split at hret
    · simp only [Outcome.ret.injEq] at hret
      subst hret
      exact ⟨rfl, rfl⟩
    · split at hret
      · simp at hret
      · simp only [Outcome.ret.injEq] at hret
        subst hret
        exact ⟨rfl, rfl⟩

/-- The discovery receiver stores the source address under the returned key when the
handler returns without error. -/
theorem stunRecvStep_peers (E : Env) (wErr : Nat → Option String) (s : StunState)
    (now : String) (nonce datagram : Bytes) (addr : AddrPort) (res : HandlerResult)
    (hns : E.StunIsMessage (datagram.take udpBufLen) = false)
    (hret : (s.r.handleNextMessage E now nonce (datagram.take udpBufLen) "STUN").2 = .ret res)
    (herr : res.err = none) :
    (stunRecvStep E wErr s now nonce (.data datagram addr)).1.peers
      = s.peers.Store res.nodeKey addr := by
  obtain ⟨resRaw, key, err⟩ := res
  simp only at herr
  subst herr
  cases hh : s.r.handleNextMessage E now nonce (datagram.take udpBufLen) "STUN" with
  | mk r1 o =>
    rw [hh] at hret
    simp only at hret
    subst hret
    simp only [stunRecvStep, hns, hh]
    cases resRaw with
    | none => rfl
    | some reply =>
      simp only [Bool.false_eq_true, if_false]
      split <;> rfl

/-- The relay receiver stores the source identity under the returned key when the
handler returns without error. -/
theorem derpRecvStep_peers (E : Env) (sErr : Nat → Option String) (d : DerpState)
    (now : String) (nonce data : Bytes) (source : NodePublic) (res : HandlerResult)
    (hret : (d.r.handleNextMessage E now nonce data "DERP").2 = .ret res)
    (herr : res.err = none) :
    (derpRecvStep E sErr d now nonce (.packet source data)).1.peers
      = d.peers.Store res.nodeKey source := by
  obtain ⟨resRaw, key, err⟩ := res
  simp only at herr
  subst herr
  cases hh : d.r.handleNextMessage E now nonce data "DERP" with
  | mk r1 o =>
    rw [hh] at hret
    simp only at hret
    subst hret
    simp only [derpRecvStep, hh]
    cases resRaw with
    | none => rfl
    | some reply =>
      simp only
      split <;> rfl

/-- The keys of a table after a `Store`: the same keys, with the stored key added at
the end when it was not among them. -/
theorem PeerTable.keys_Store {V : Type} (t : PeerTable V) (key : NodePublic) (v : V) :
    (t.Store key v).map Prod.fst
      = if key ∈ t.map Prod.fst then t.map Prod.fst else t.map Prod.fst ++ [key] := by
  induction t with
  | nil => simp [PeerTable.Store]
  | cons e rest ih =>
    obtain ⟨k, w⟩ := e
    by_cases hk : k = key
    · subst hk
      simp [PeerTable.Store]
    · have hk2 : ¬ key = k := fun h => hk h.symm
      simp only [PeerTable.Store, hk, if_false, List.map_cons, ih, List.mem_cons, hk2, false_or]
      split <;> simp

/-- A `Store` keeps the keys of a table distinct. -/
theorem PeerTable.nodup_Store {V : Type} (t : PeerTable V) (key : NodePublic) (v : V)
    (hnd : (t.map Prod.fst).Nodup) : ((t.Store key v).map Prod.fst).Nodup := by
  rw [PeerTable.keys_Store]
  split
  · exact hnd
  · rename_i hmem
    exact List.Nodup.append hnd (List.nodup_singleton key) (by simpa using hmem)

/-- The entries of a table with distinct keys after a `Store`: the stored pair, and
the entries of the other keys. -/
theorem PeerTable.mem_Store_iff {V : Type} (t : PeerTable V) (key : NodePublic) (v : V)
    (hnd : (t.map Prod.fst).Nodup) (k : NodePublic) (w : V) :
    (k, w) ∈ t.Store key v ↔ (k = key ∧ w = v) ∨ (k ≠ key ∧ (k, w) ∈ t) := by
  induction t with
  | nil => simp [PeerTable.Store]
  | cons e rest ih =>
    obtain ⟨k0, w0⟩ := e
    simp only [List.map_cons, List.nodup_cons] at hnd
    obtain ⟨hnot, hrest⟩ := hnd
    by_cases hk : k0 = key
    · subst hk
      have hfresh : (k, w) ∈ rest → k ≠ k0 := by
        intro hmem heq
        apply hnot
        rw [← heq]
        exact List.mem_map_of_mem Prod.fst hmem
      simp only [PeerTable.Store, if_true, List.mem_cons, Prod.mk.injEq]
      constructor
      · rintro (⟨h1, h2⟩ | h)
        · exact Or.inl ⟨h1, h2⟩
        · exact Or.inr ⟨hfresh h, Or.inr h⟩
      · rintro (⟨h1, h2⟩ | ⟨h1, h2 | h2⟩)
        · exact Or.inl ⟨h1, h2⟩
        · exact absurd h2.1 h1
        · exact Or.inr h2
    · simp only [PeerTable.Store, hk, if_false, List.mem_cons, Prod.mk.injEq, ih hrest]
      constructor
      · rintro (⟨h1, h2⟩ | ⟨h1, h2⟩ | ⟨h1, h2⟩)
        · exact Or.inr ⟨by rw [h1]; exact hk, Or.inl ⟨h1, h2⟩⟩
        · exact Or.inl ⟨h1, h2⟩
        · exact Or.inr ⟨h1, Or.inr h2⟩
      · rintro (⟨h1, h2⟩ | ⟨h1, h2 | h2⟩)
        · exact Or.inr (Or.inl ⟨h1, h2⟩)
        · exact Or.inl h2
        · exact Or.inr (Or.inr ⟨h1, h2⟩)

/-- C5: when an iteration of a receive loop (discovery or relay) handles an inbound
message without error, the peer address table, whose keys are distinct, is
afterwards the table with distinct keys whose entries are the pair of the key the
handler returned with the source of the message, and the entries the table held
for the other keys: a key that was unknown has appeared, an older address held
for the key is gone (that is overwritten), and every other entry is unchanged.
That key is the node key embedded in the decoded message, for every message type
and with or without a reply. -/
theorem recv_learns_peer_address (E : Env) (wErr sErr : Nat → Option String)
    (s : StunState) (d : DerpState) (now : String) (nonce datagram data : Bytes)
    (addr : AddrPort) (source : NodePublic) (res resD : HandlerResult)
    (hnd : (s.peers.map Prod.fst).Nodup) (hndD : (d.peers.map Prod.fst).Nodup)
    (hns : E.StunIsMessage (datagram.take udpBufLen) = false)
    (hret : (s.r.handleNextMessage E now nonce (datagram.take udpBufLen) "STUN").2 = .ret res)
    (herr : res.err = none)
    (hretD : (d.r.handleNextMessage E now nonce data "DERP").2 = .ret resD)
    (herrD : resD.err = none) :
    (((stunRecvStep E wErr s now nonce (.data datagram addr)).1.peers.map Prod.fst).Nodup ∧
        (∀ k a, (k, a) ∈ (stunRecvStep E wErr s now nonce (.data datagram addr)).1.peers ↔
          (k = res.nodeKey ∧ a = addr) ∨ (k ≠ res.nodeKey ∧ (k, a) ∈ s.peers)) ∧
        (stunRecvStep E wErr s now nonce (.data datagram addr)).1.peers.Load res.nodeKey
          = some addr ∧
        (∀ k, k ≠ res.nodeKey →
          (stunRecvStep E wErr s now nonce (.data datagram addr)).1.peers.Load k
            = s.peers.Load k) ∧
        (∀ clear ovMsg,
          E.OpenFrom s.r.SelfPriv (E.Public s.r.PeerPriv) (datagram.take udpBufLen)
            = some clear →
          E.Unmarshal clear = .ok ovMsg → res.nodeKey = ovMsg.Node.Key)) ∧
      (((derpRecvStep E sErr d now nonce (.packet source data)).1.peers.map Prod.fst).Nodup ∧
        (∀ k a, (k, a) ∈ (derpRecvStep E sErr d now nonce (.packet source data)).1.peers ↔
          (k = resD.nodeKey ∧ a = source) ∨ (k ≠ resD.nodeKey ∧ (k, a) ∈ d.peers)) ∧
        (derpRecvStep E sErr d now nonce (.packet source data)).1.peers.Load resD.nodeKey
          = some source ∧
        (∀ k, k ≠ resD.nodeKey →
          (derpRecvStep E sErr d now nonce (.packet source data)).1.peers.Load k
            = d.peers.Load k) ∧
        (∀ clear ovMsg,
          E.OpenFrom d.r.SelfPriv (E.Public d.r.PeerPriv) data = some clear →
          E.Unmarshal clear = .ok ovMsg → resD.nodeKey = ovMsg.Node.Key)) := by
  rw [stunRecvStep_peers E wErr s now nonce datagram addr res hns hret herr,
    derpRecvStep_peers E sErr d now nonce data source resD hretD herrD]
  refine ⟨⟨PeerTable.nodup_Store _ _ _ hnd, PeerTable.mem_Store_iff _ _ _ hnd,
      PeerTable.Load_Store_same _ _ _, ?_, ?_⟩,
    ⟨PeerTable.nodup_Store _ _ _ hndD, PeerTable.mem_Store_iff _ _ _ hndD,
      PeerTable.Load_Store_same _ _ _, ?_, ?_⟩⟩
  · intro k hk
    exact PeerTable.Load_Store_other _ _ _ _ hk
  · intro clear ovMsg ho hd
    exact (handleNextMessage_ret_key E s.r now nonce _ "STUN" clear ovMsg res ho hd hret).1
  · intro k hk
    exact PeerTable.Load_Store_other _ _ _ _ hk
  · intro clear ovMsg ho hd
    exact (handleNextMessage_ret_key E d.r now nonce _ "DERP" clear ovMsg resD ho hd hretD).1

/-- C5, at a concrete input: the peer with node key 5, known at 192.0.2.1 on the
discovery channel and as 71 on the relay, sends a ping from 192.0.2.3 and a pong
through the relay identity 77; of the old entries of key 5 nothing is left. -/
theorem recv_learns_peer_address_witness :
    (∀ k a, (k, a) ∈ (stunRecvStep demoEnv demoNoErr demoStun "12:00" []
          (.data (demoSealed demoPing) (demoAddr 3))).1.peers ↔
        (k = ⟨5⟩ ∧ a = demoAddr 3) ∨ (k ≠ ⟨5⟩ ∧ (k, a) ∈ demoStun.peers)) ∧
      (stunRecvStep demoEnv demoNoErr demoStun "12:00" []
          (.data (demoSealed demoPing) (demoAddr 3))).1.peers
        = [(⟨5⟩, demoAddr 3), (⟨6⟩, demoAddr 2)] ∧
      (∀ k a, (k, a) ∈ (derpRecvStep demoEnv demoNoErr demoDerp "12:00" []
          (.packet ⟨77⟩ (demoSealed demoPong))).1.peers ↔
        (k = ⟨5⟩ ∧ a = ⟨77⟩) ∨ (k ≠ ⟨5⟩ ∧ (k, a) ∈ demoDerp.peers)) ∧
      (derpRecvStep demoEnv demoNoErr demoDerp "12:00" []
          (.packet ⟨77⟩ (demoSealed demoPong))).1.peers
        = [(⟨5⟩, ⟨77⟩), (⟨6⟩, ⟨72⟩)] :=
  have h := recv_learns_peer_address demoEnv demoNoErr demoNoErr demoStun demoDerp "12:00" []
    (demoSealed demoPing) (demoSealed demoPong) (demoAddr 3) ⟨77⟩
    ⟨some [33, 0, 2, 0, 0, 0], ⟨5⟩, none⟩ ⟨none, ⟨5⟩, none⟩
    (by decide) (by decide) (by decide) (by decide) rfl (by decide) rfl
  ⟨h.1.2.1, by decide, h.2.2.1, by decide⟩

/-! ## The broadcasters -/

theorem Range_stunSendOne_ok (wErr : Nat → Option String) (now : String) (sealed : Bytes) :
    ∀ (T : PeerTable AddrPort) (r : Receive) (conn : UDPConn),
      (∀ i, i < T.length → wErr (conn.writes.length + i) = none) →
      PeerTable.Range (stunSendOne wErr now sealed) T (r, conn)
        = (r, ⟨conn.writes ++ T.map (fun e => (e.2, sealed))⟩) := by
  intro T
  induction T with
  | nil => intro r conn _; simp [PeerTable.Range]
  | cons e rest ih =>
    intro r conn hok
    obtain ⟨k, addr⟩ := e
    have h0 : wErr conn.writes.length = none := by
      have := hok 0 (by simp)
      simpa using this
    simp only [PeerTable.Range, stunSendOne, UDPConn.WriteToUDPAddrPort, h0]
    rw [ih]
    · simp
    · intro i hi
      have := hok (i + 1) (by simp; omega)
      simpa [Nat.add_assoc, Nat.add_comm 1 i] using this

theorem Range_stunSendOne_fail (wErr : Nat → Option String) (now : String) (sealed : Bytes)
    (err : String) :
    ∀ (T : PeerTable AddrPort) (j : Nat) (r : Receive) (conn : UDPConn),
      j < T.length → (∀ i, i < j → wErr (conn.writes.length + i) = none) →
      wErr (conn.writes.length + j) = some err →
      PeerTable.Range (stunSendOne wErr now sealed) T (r, conn)
        = (r.humanLogf (now ++ " Failed to send updated node over udp: " ++ err),
            ⟨conn.writes ++ (T.take (j + 1)).map (fun e => (e.2, sealed))⟩) := by
  intro T
  induction T with
  | nil => intro j r conn hj; simp at hj
  | cons e rest ih =>
    intro j r conn hj hok hfail
    obtain ⟨k, addr⟩ := e
    cases j with
    | zero =>
      have h0 : wErr conn.writes.length = some err := by simpa using hfail
      simp [PeerTable.Range, stunSendOne, UDPConn.WriteToUDPAddrPort, h0]
    | succ j =>
      have h0 : wErr conn.writes.length = none := by
        have := hok 0 (by omega)
        simpa using this
      simp only [PeerTable.Range, stunSendOne, UDPConn.WriteToUDPAddrPort, h0]
      rw [ih j]
      · simp
      · simpa using hj
      · intro i hi
        have := hok (i + 1) (by omega)
        simpa [Nat.add_assoc, Nat.add_comm 1 i] using this
      · simpa [Nat.add_assoc, Nat.add_comm 1 j] using hfail

theorem Range_derpSendOne_ok (sErr : Nat → Option String) (sealed : Bytes) :
    ∀ (T : PeerTable NodePublic) (r : Receive) (c : DerpClient),
      (∀ i, i < T.length → sErr (c.sends.length + i) = none) →
      PeerTable.Range (derpSendOne sErr sealed) T (r, c)
        = (r, ⟨c.sends ++ T.map (fun e => (e.2, sealed))⟩) := by
  intro T
  induction T with
  | nil => intro r c _; simp [PeerTable.Range]
  | cons e rest ih =>
    intro r c hok
    obtain ⟨k, derpKey⟩ := e
    have h0 : sErr c.sends.length = none := by
      have := hok 0 (by simp)
      simpa using this
    simp only [PeerTable.Range, derpSendOne, DerpClient.Send, h0]
    rw [ih]
    · simp
    · intro i hi
      have := hok (i + 1) (by simp; omega)
      simpa [Nat.add_assoc, Nat.add_comm 1 i] using this

theorem Range_derpSendOne_fail (sErr : Nat → Option String) (sealed : Bytes) (err : String) :
    ∀ (T : PeerTable NodePublic) (j : Nat) (r : Receive) (c : DerpClient),
      j < T.length → (∀ i, i < j → sErr (c.sends.length + i) = none) →
      sErr (c.sends.length + j) = some err →
      PeerTable.Range (derpSendOne sErr sealed) T (r, c)
        = (r.humanLogf ("Send updated node over DERP: " ++ err),
            ⟨c.sends ++ (T.take (j + 1)).map (fun e => (e.2, sealed))⟩) := by
  intro T
  induction T with
  | nil => intro j r c hj; simp at hj
  | cons e rest ih =>
    intro j r c hj hok hfail
    obtain ⟨k, derpKey⟩ := e
    cases j with
    | zero =>
      have h0 : sErr c.sends.length = some err := by simpa using hfail
      simp [PeerTable.Range, derpSendOne, DerpClient.Send, h0]
    | succ j =>
      have h0 : sErr c.sends.length = none := by
        have := hok 0 (by omega)
        simpa using this
      simp only [PeerTable.Range, derpSendOne, DerpClient.Send, h0]
      rw [ih j]
      · simp
      · simpa using hj
      · intro i hi
        have := hok (i + 1) (by omega)
        simpa [Nat.add_assoc, Nat.add_comm 1 i] using this
      · simpa [Nat.add_assoc, Nat.add_comm 1 j] using hfail

/-- C6: a broadcaster (discovery or relay) that takes the node `n` from the outbound
channel while the table holds `T`, and none of whose sends fails, stores `n` as
`lastNode` and makes exactly one send per entry of `T`, in order, each to the
address of that entry and each with the same sealed payload, which opens under
the fixed pair and decodes to a node update with node `n`; it makes no other
send. -/
theorem broadcast_reaches_every_peer (E : Env) (hlaw : E.Lawful)
    (wErr sErr : Nat → Option String) (s : StunState) (d : DerpState) (now : String)
    (nonce : Bytes) (n : Node) (rest restD : List (Option Node))
    (hout : s.r.out = some n :: rest)
    (hok : ∀ i, i < s.peers.length → wErr (s.conn.writes.length + i) = none)
    (houtD : d.r.out = some n :: restD)
    (hokD : ∀ i, i < d.peers.length → sErr (d.c.sends.length + i) = none) :
    (∃ sealed clear,
        E.OpenFrom s.r.SelfPriv (E.Public s.r.PeerPriv) sealed = some clear ∧
        E.Unmarshal clear = .ok ⟨messageTypeNodeUpdate, HostInfo.zero, n⟩ ∧
        (stunBroadcastStep E wErr s now nonce).2 = .running ∧
        (stunBroadcastStep E wErr s now nonce).1.r.lastNode = some n ∧
        (stunBroadcastStep E wErr s now nonce).1.conn.writes
          = s.conn.writes ++ s.peers.map (fun e => (e.2, sealed))) ∧
      (∃ sealed clear,
        E.OpenFrom d.r.SelfPriv (E.Public d.r.PeerPriv) sealed = some clear ∧
        E.Unmarshal clear = .ok ⟨messageTypeNodeUpdate, HostInfo.zero, n⟩ ∧
        (derpBroadcastStep E sErr d nonce).2 = .running ∧
        (derpBroadcastStep E sErr d nonce).1.r.lastNode = some n ∧
        (derpBroadcastStep E sErr d nonce).1.c.sends
          = d.c.sends ++ d.peers.map (fun e => (e.2, sealed))) := by
  constructor
  · obtain ⟨raw, hm, ho, hu⟩ := reply_opens_decodes E hlaw s.r nonce
      { overlayMessage.zero with Typ := messageTypeNodeUpdate, Node := n } rfl
    refine ⟨_, raw, ho, hu, ?_, ?_, ?_⟩ <;>
    · simp only [stunBroadcastStep, hout, hm] <;>
        rw [Range_stunSendOne_ok wErr now _ s.peers _ s.conn hok]
  · obtain ⟨raw, hm, ho, hu⟩ := reply_opens_decodes E hlaw d.r nonce
      { overlayMessage.zero with Typ := messageTypeNodeUpdate, Node := n } rfl
    refine ⟨_, raw, ho, hu, ?_, ?_, ?_⟩ <;>
    · simp only [derpBroadcastStep, houtD, hm] <;>
        rw [Range_derpSendOne_ok sErr _ d.peers _ d.c hokD]

/-- C6, at a concrete input: two peers in each table, the node with key 1 on the
outbound channel, no failing send. -/
theorem broadcast_reaches_every_peer_witness :
    (stunBroadcastStep demoEnv demoNoErr demoStun "12:00" []).1.r.lastNode = some (demoNode 1) ∧
      (stunBroadcastStep demoEnv demoNoErr demoStun "12:00" []).1.conn.writes.map Prod.fst
        = [demoAddr 1, demoAddr 2] ∧
      (derpBroadcastStep demoEnv demoNoErr demoDerp []).1.r.lastNode = some (demoNode 1) ∧
      (derpBroadcastStep demoEnv demoNoErr demoDerp []).1.c.sends.map Prod.fst
        = [⟨71⟩, ⟨72⟩] :=
  have h := broadcast_reaches_every_peer demoEnv demoEnv_lawful demoNoErr demoNoErr demoStun
    demoDerp "12:00" [] (demoNode 1) [] [] rfl (fun _ _ => rfl) rfl (fun _ _ => rfl)
  ⟨h.1.choose_spec.choose_spec.2.2.2.1, by decide, h.2.choose_spec.choose_spec.2.2.2.1,
    by decide⟩

/-- C7, as stated, fails: in the discovery broadcaster, with peers at 192.0.2.1 and
192.0.2.2 in the table and the first send failing, the failure is logged and the
round ends there; 192.0.2.2 receives no send attempt. -/
theorem stunBroadcast_stops_after_failed_send :
    demoStun.peers.map Prod.snd = [demoAddr 1, demoAddr 2] ∧
      (stunBroadcastStep demoEnv demoFirstErr demoStun "12:00" []).1.conn.writes.map Prod.fst
        = [demoAddr 1] ∧
      (stunBroadcastStep demoEnv demoFirstErr demoStun "12:00" []).1.r.HumanLogf
        = ["12:00 Failed to send updated node over udp: network is unreachable"] ∧
      (stunBroadcastStep demoEnv demoFirstErr demoStun "12:00" []).2 = .running := by
  refine ⟨?_, ?_, ?_, ?_⟩ <;> decide

/-- C7, amended: in both broadcasters, discovery and relay, when a send of a node
update fails, the failure is logged and the round ends there: the entries of the
table up to and including the failing one have received a send attempt, the
entries after it receive none, and the broadcaster goes on to the next node
update. -/
theorem broadcast_stops_at_first_failure (E : Env) (hlaw : E.Lawful)
    (wErr sErr : Nat → Option String) (s : StunState) (d : DerpState) (now : String)
    (nonce : Bytes) (n : Node) (rest restD : List (Option Node)) (j jD : Nat)
    (err errD : String)
    (hout : s.r.out = some n :: rest) (hj : j < s.peers.length)
    (hok : ∀ i, i < j → wErr (s.conn.writes.length + i) = none)
    (hfail : wErr (s.conn.writes.length + j) = some err)
    (houtD : d.r.out = some n :: restD) (hjD : jD < d.peers.length)
    (hokD : ∀ i, i < jD → sErr (d.c.sends.length + i) = none)
    (hfailD : sErr (d.c.sends.length + jD) = some errD) :
    (∃ sealed,
        (stunBroadcastStep E wErr s now nonce).2 = .running ∧
        (stunBroadcastStep E wErr s now nonce).1.conn.writes
          = s.conn.writes ++ (s.peers.take (j + 1)).map (fun e => (e.2, sealed)) ∧
        (stunBroadcastStep E wErr s now nonce).1.r.HumanLogf
          = s.r.HumanLogf ++ [now ++ " Failed to send updated node over udp: " ++ err]) ∧
      (∃ sealed,
        (derpBroadcastStep E sErr d nonce).2 = .running ∧
        (derpBroadcastStep E sErr d nonce).1.c.sends
          = d.c.sends ++ (d.peers.take (jD + 1)).map (fun e => (e.2, sealed)) ∧
        (derpBroadcastStep E sErr d nonce).1.r.HumanLogf
          = d.r.HumanLogf ++ ["Send updated node over DERP: " ++ errD]) := by
  constructor
  · obtain ⟨raw, hm, -, -⟩ := reply_opens_decodes E hlaw s.r nonce
      { overlayMessage.zero with Typ := messageTypeNodeUpdate, Node := n } rfl
    refine ⟨E.SealTo s.r.SelfPriv (E.Public s.r.PeerPriv) nonce raw, ?_, ?_, ?_⟩ <;>
    · simp only [stunBroadcastStep, hout, hm] <;>
        rw [Range_stunSendOne_fail wErr now _ err s.peers j _ s.conn hj hok hfail] <;> rfl
  · obtain ⟨raw, hm, -, -⟩ := reply_opens_decodes E hlaw d.r nonce
      { overlayMessage.zero with Typ := messageTypeNodeUpdate, Node := n } rfl
    refine ⟨E.SealTo d.r.SelfPriv (E.Public d.r.PeerPriv) nonce raw, ?_, ?_, ?_⟩ <;>
    · simp only [derpBroadcastStep, houtD, hm] <;>
        rw [Range_derpSendOne_fail sErr _ errD d.peers jD _ d.c hjD hokD hfailD] <;> rfl

/-- C7, amended, at a concrete input: two peers in each table and the first send
failing. -/
theorem broadcast_stops_at_first_failure_witness :
    (stunBroadcastStep demoEnv demoFirstErr demoStun "12:00" []).2 = .running ∧
      (derpBroadcastStep demoEnv demoFirstErr demoDerp []).2 = .running ∧
      (derpBroadcastStep demoEnv demoFirstErr demoDerp []).1.c.sends.map Prod.fst = [⟨71⟩] :=
  have h := broadcast_stops_at_first_failure demoEnv demoEnv_lawful demoFirstErr demoFirstErr
    demoStun demoDerp "12:00" [] (demoNode 1) [] [] 0 0 "network is unreachable"
    "network is unreachable" rfl (by decide) (fun _ hi => absurd hi (Nat.not_lt_zero _)) rfl
    rfl (by decide) (fun _ hi => absurd hi (Nat.not_lt_zero _)) rfl
  ⟨h.1.choose_spec.1, h.2.choose_spec.1, by decide⟩

/-! ## The readiness channel of `ListenOverlaySTUN` -/

theorem handleSwitch_stunIP (E : Env) (r : Receive) (now : String) (ovMsg : overlayMessage)
    (system : String) : (handleSwitch E r now ovMsg system).1.stunIP = r.stunIP := by
  simp only [handleSwitch]
  split_ifs <;> first | rfl | (split <;> rfl)

theorem handleNextMessage_stunIP (E : Env) (r : Receive) (now : String) (nonce msg : Bytes)
    (system : String) : (r.handleNextMessage E now nonce msg system).1.stunIP = r.stunIP := by
  have hsw := fun ovMsg => handleSwitch_stunIP E r now ovMsg system
  simp only [Receive.handleNextMessage]
  split
  · rfl
  · split
    · rfl
    · rename_i ovMsg _
      split
      · rename_i r1 heq
        have := hsw ovMsg
        rw [heq] at this
        exact this
      · rename_i r1 res heq
        have := hsw ovMsg
        rw [heq] at this
        split
        · exact this
        · split <;> exact this

/-- An iteration on anything but a valid discovery-service response leaves the
readiness channel, the once flag and the discovered endpoint as they were. -/
theorem stunRecvStep_invalid (E : Env) (wErr : Nat → Option String) (s : StunState)
    (now : String) (nonce : Bytes) (ev : UDPRead) (hinv : validStunResponse E ev = false) :
    (stunRecvStep E wErr s now nonce ev).1.ipChanCloses = s.ipChanCloses ∧
      (stunRecvStep E wErr s now nonce ev).1.closeIPChanOnce = s.closeIPChanOnce ∧
      (stunRecvStep E wErr s now nonce ev).1.r.stunIP = s.r.stunIP := by
  cases ev with
  | err e => exact ⟨rfl, rfl, rfl⟩
  | data datagram addr =>
    simp only [validStunResponse] at hinv
    simp only [stunRecvStep]
    by_cases hmsg : E.StunIsMessage (List.take udpBufLen datagram) = true
    · simp only [hmsg, Bool.true_and, if_true] at hinv ⊢
      cases hd : E.StunDecode (List.take udpBufLen datagram) with
      | error e => exact ⟨rfl, rfl, rfl⟩
      | ok m =>
        simp only [hd] at hinv ⊢
        cases hx : E.XorGetFrom m with
        | error e => exact ⟨rfl, rfl, rfl⟩
        | ok xorAddr =>
          simp only [hx] at hinv ⊢
          cases ha : AddrFromSlice xorAddr.IP with
          | mk a ok =>
            rw [ha] at hinv
            simp only at hinv
            subst hinv
            exact ⟨rfl, rfl, rfl⟩
    · simp only [hmsg, Bool.false_eq_true, if_false]
      have hip := handleNextMessage_stunIP E s.r now nonce (List.take udpBufLen datagram) "STUN"
      cases hh : s.r.handleNextMessage E now nonce (List.take udpBufLen datagram) "STUN" with
      | mk r1 o =>
        rw [hh] at hip
        simp only at hip
        cases o with
        | blocked => exact ⟨rfl, rfl, hip⟩
        | panicked p => exact ⟨rfl, rfl, hip⟩
        | ret res =>
          obtain ⟨resRaw, key, err⟩ := res
          cases err with
          | some e => exact ⟨rfl, rfl, hip⟩
          | none =>
            cases resRaw with
            | none => exact ⟨rfl, rfl, hip⟩
            | some reply =>
              simp only
              split <;> exact ⟨rfl, rfl, hip⟩

/-- An iteration on a valid discovery-service response goes on running, has run the
once, has closed the readiness channel if the once had not run before, and leaves
a valid discovered endpoint. -/
theorem stunRecvStep_valid (E : Env) (wErr : Nat → Option String) (s : StunState)
    (now : String) (nonce : Bytes) (ev : UDPRead) (hval : validStunResponse E ev = true) :
    (stunRecvStep E wErr s now nonce ev).2 = .running ∧
      (stunRecvStep E wErr s now nonce ev).1.closeIPChanOnce = true ∧
      (stunRecvStep E wErr s now nonce ev).1.ipChanCloses
        = (if s.closeIPChanOnce then s.ipChanCloses else s.ipChanCloses + 1) ∧
      (stunRecvStep E wErr s now nonce ev).1.r.stunIP.IsValid = true := by
  cases ev with
  | err e => simp [validStunResponse] at hval
  | data datagram addr =>
    simp only [validStunResponse, Bool.and_eq_true] at hval
    obtain ⟨hmsg, hrest⟩ := hval
    simp only [stunRecvStep, hmsg, if_true]
    cases hd : E.StunDecode (List.take udpBufLen datagram) with
    | error e => simp [hd] at hrest
    | ok m =>
      simp only [hd] at hrest ⊢
      cases hx : E.XorGetFrom m with
      | error e => simp [hx] at hrest
      | ok xorAddr =>
        simp only [hx] at hrest ⊢
        have hvalid : (AddrFromSlice xorAddr.IP).1.IsValid = true := by
          simp only [AddrFromSlice] at hrest ⊢
          split_ifs at hrest ⊢ <;> rfl
        cases ha : AddrFromSlice xorAddr.IP with
        | mk a ok =>
          rw [ha] at hrest hvalid
          simp only at hrest hvalid
          subst hrest
          simp only [StunState.closeOnce]
          refine ⟨trivial, ?_, ?_, ?_⟩
          · split <;> simp_all
          · split <;> simp_all
          · split <;> exact hvalid

/-- The invariant of the receiver goroutine, carried along a run: the once has run
exactly when the readiness channel is closed, the channel has been closed at most
once, a closed channel comes with a valid discovered endpoint, and the channel is
closed at the end exactly when it was at the start or a valid response was among
the reads taken. -/
theorem stunRecvRun_invariant (E : Env) (wErr : Nat → Option String) :
    ∀ (inputs : List StunInput) (s : StunState),
      (s.closeIPChanOnce = true ↔ 0 < s.ipChanCloses) → s.ipChanCloses ≤ 1 →
      (0 < s.ipChanCloses → s.r.stunIP.IsValid = true) →
      (stunRecvRun E wErr s inputs).1.ipChanCloses ≤ 1 ∧
        (0 < (stunRecvRun E wErr s inputs).1.ipChanCloses →
          (stunRecvRun E wErr s inputs).1.r.stunIP.IsValid = true) ∧
        (0 < (stunRecvRun E wErr s inputs).1.ipChanCloses ↔
          (0 < s.ipChanCloses ∨
            ∃ i ∈ inputs.take (stunRecvRun E wErr s inputs).2.2,
              validStunResponse E i.ev = true)) := by
  intro inputs
  induction inputs with
  | nil =>
    intro s _ hle hip
    simp only [stunRecvRun, List.take_nil, List.not_mem_nil, false_and, exists_false, or_false]
    exact ⟨hle, hip, trivial⟩
  | cons i rest ih =>
    intro s honce hle hip
    by_cases hv : validStunResponse E i.ev = true
    · obtain ⟨hrun, ho1, hc1, hip1⟩ := stunRecvStep_valid E wErr s i.now i.nonce i.ev hv
      cases hstep : stunRecvStep E wErr s i.now i.nonce i.ev with
      | mk s1 st =>
        rw [hstep] at hrun ho1 hc1 hip1
        simp only at hrun ho1 hc1 hip1
        subst hrun
        have hpos1 : 0 < s1.ipChanCloses := by
          rw [hc1]
          by_cases hb : s.closeIPChanOnce = true
          · simp only [hb, if_true]; exact honce.mp hb
          · simp only [hb]; simp
        have hle1 : s1.ipChanCloses ≤ 1 := by
          rw [hc1]
          by_cases hb : s.closeIPChanOnce = true
          · simp only [hb, if_true]; exact hle
          · simp only [hb]
            have : ¬ 0 < s.ipChanCloses := fun h => hb (honce.mpr h)
            simp only [Bool.false_eq_true, if_false]
            omega
        obtain ⟨h1, h2, h3⟩ := ih s1 ⟨fun _ => hpos1, fun _ => ho1⟩ hle1 (fun _ => hip1)
        simp only [stunRecvRun, hstep]
        refine ⟨h1, h2, ?_⟩
        constructor
        · intro _
          exact Or.inr ⟨i, by simp, hv⟩
        · intro _
          exact h3.mpr (Or.inl hpos1)
    · have hv2 : validStunResponse E i.ev = false := by simpa using hv
      obtain ⟨hc1, ho1, hip1⟩ := stunRecvStep_invalid E wErr s i.now i.nonce i.ev hv2
      cases hstep : stunRecvStep E wErr s i.now i.nonce i.ev with
      | mk s1 st =>
        rw [hstep] at hc1 ho1 hip1
        simp only at hc1 ho1 hip1
        have hinv1 : (s1.closeIPChanOnce = true ↔ 0 < s1.ipChanCloses) := by
          rw [hc1, ho1]; exact honce
        have hle1 : s1.ipChanCloses ≤ 1 := by rw [hc1]; exact hle
        have hip2 : 0 < s1.ipChanCloses → s1.r.stunIP.IsValid = true := by
          rw [hc1, hip1]; exact hip
        cases st with
        | running =>
          obtain ⟨h1, h2, h3⟩ := ih s1 hinv1 hle1 hip2
          simp only [stunRecvRun, hstep]
          refine ⟨h1, h2, ?_⟩
          rw [h3, hc1]
          constructor
          · rintro (h | ⟨x, hx, hxv⟩)
            · exact Or.inl h
            · exact Or.inr ⟨x, by simp [hx], hxv⟩
          · rintro (h | ⟨x, hx, hxv⟩)
            · exact Or.inl h
            · simp only [List.take_succ_cons, List.mem_cons] at hx
              rcases hx with hx | hx
              · subst hx; exact absurd hxv hv
              · exact Or.inr ⟨x, hx, hxv⟩
        | exited =>
          simp only [stunRecvRun, hstep]
          refine ⟨hle1, hip2, ?_⟩
          rw [hc1]
          constructor
          · exact Or.inl
          · rintro (h | ⟨x, hx, hxv⟩)
            · exact h
            · simp only [List.take_succ_cons, List.take_zero, List.mem_singleton] at hx
              subst hx; exact absurd hxv hv
        | panicked p =>
          simp only [stunRecvRun, hstep]
          refine ⟨hle1, hip2, ?_⟩
          rw [hc1]
          constructor
          · exact Or.inl
          · rintro (h | ⟨x, hx, hxv⟩)
            · exact h
            · simp only [List.take_succ_cons, List.take_zero, List.mem_singleton] at hx
              subst hx; exact absurd hxv hv
        | blocked =>
          simp only [stunRecvRun, hstep]
          refine ⟨hle1, hip2, ?_⟩
          rw [hc1]
          constructor
          · exact Or.inl
          · rintro (h | ⟨x, hx, hxv⟩)
            · exact h
            · simp only [List.take_succ_cons, List.take_zero, List.mem_singleton] at hx
              subst hx; exact absurd hxv hv

/-- C8: run the receiver goroutine of `ListenOverlaySTUN` from its start on any
sequence of reads. In the state it reaches, `close(ipChan)` has been executed at
most once; the readiness channel is closed exactly when one of the reads taken
was a discovery-service response whose XOR-mapped address was decoded and
converted; and when it is closed, `stunIP` is valid. An iteration on any other
read (an overlay message, an undecryptable datagram, a response whose address
does not convert) leaves the channel as it was. -/
theorem ipChan_closed_once_iff_valid_response (E : Env) (wErr : Nat → Option String)
    (r : Receive) (inputs : List StunInput) :
    (stunRecvRun E wErr (StunState.init r) inputs).1.ipChanCloses ≤ 1 ∧
      ((stunRecvRun E wErr (StunState.init r) inputs).1.ipChanClosed = true ↔
        ∃ i ∈ inputs.take (stunRecvRun E wErr (StunState.init r) inputs).2.2,
          validStunResponse E i.ev = true) ∧
      ((stunRecvRun E wErr (StunState.init r) inputs).1.ipChanClosed = true →
        (stunRecvRun E wErr (StunState.init r) inputs).1.r.stunIP.IsValid = true) ∧
      (∀ (s : StunState) (now : String) (nonce : Bytes) (ev : UDPRead),
        validStunResponse E ev = false →
          (stunRecvStep E wErr s now nonce ev).1.ipChanCloses = s.ipChanCloses) ∧
      (∀ (datagram : Bytes) (addr : AddrPort),
        E.StunIsMessage (datagram.take udpBufLen) = false →
          validStunResponse E (.data datagram addr) = false) ∧
      (∀ (datagram : Bytes) (addr : AddrPort) (m : StunMessage) (xorAddr : XORMappedAddress),
        E.StunDecode (datagram.take udpBufLen) = .ok m → E.XorGetFrom m = .ok xorAddr →
          (AddrFromSlice xorAddr.IP).2 = false →
          validStunResponse E (.data datagram addr) = false) := by
  obtain ⟨h1, h2, h3⟩ := stunRecvRun_invariant E wErr inputs (StunState.init r)
    (by simp [StunState.init]) (by simp [StunState.init]) (by simp [StunState.init])
  have hinit : ¬ 0 < (StunState.init r).ipChanCloses := by simp [StunState.init]
  refine ⟨h1, ?_, ?_, ?_, ?_, ?_⟩
  · simp only [StunState.ipChanClosed, decide_eq_true_eq]
    rw [h3]
    constructor
    · rintro (h | h)
      · exact absurd h hinit
      · exact h
    · exact Or.inr
  · simp only [StunState.ipChanClosed, decide_eq_true_eq]
    exact h2
  · intro s now nonce ev hinv
    exact (stunRecvStep_invalid E wErr s now nonce ev hinv).1
  · intro datagram addr hns
    simp [validStunResponse, hns]
  · intro datagram addr m xorAddr hd hx ha
    simp [validStunResponse, hd, hx, ha]

/-- C8, at a concrete run: a ping, a response that does not convert, an
undecryptable datagram, then two valid responses; the channel is closed once, by
the fourth read. -/
theorem ipChan_closed_once_iff_valid_response_witness :
    (stunRecvRun demoEnv demoNoErr (StunState.init demoReceive) (demoReads.take 3)).1.ipChanCloses
        = 0 ∧
      (stunRecvRun demoEnv demoNoErr (StunState.init demoReceive) (demoReads.take 4)).1.ipChanCloses
        = 1 ∧
      (stunRecvRun demoEnv demoNoErr (StunState.init demoReceive) demoReads).1.ipChanCloses = 1 ∧
      (stunRecvRun demoEnv demoNoErr (StunState.init demoReceive) demoReads).2.2 = 5 ∧
      (stunRecvRun demoEnv demoNoErr (StunState.init demoReceive) demoReads).1.r.stunIP.IsValid
        = true :=
  ⟨by decide, by decide, by decide, by decide,
    (ipChan_closed_once_iff_valid_response demoEnv demoNoErr demoReceive demoReads).2.2.1
      (by decide)⟩

/-! ## `PickDERPHome` -/

/-- C10, where the code departs from it: with a relay map of the regions 65543 and
65536, the preferred region 65543 makes `PickDERPHome` succeed and log that it
picked region "far" as overlay home, while the authorization bundle hands out
region 7, which the relay map does not hold, so the getter of `ListenOverlayDERP`
finds no region; and the preferred region 65536 is handed out as 0. -/
theorem PickDERPHome_truncates_region :
    demoReceiveFar.DerpMap.lookup 65543 = some ⟨65543, "far"⟩ ∧
      (demoReceiveFar.PickDERPHome demoEnv (.ok 65543)).2 = .ret none ∧
      (demoReceiveFar.PickDERPHome demoEnv (.ok 65543)).1.HumanLogf
        = ["Picked DERP region far as overlay home"] ∧
      ((demoReceiveFar.PickDERPHome demoEnv (.ok 65543)).1.ClientAuth demoEnv).ReceiverDERPRegionID
        = 7 ∧
      (demoReceiveFar.PickDERPHome demoEnv (.ok 65543)).1.derpHomeRegion = none ∧
      (demoReceiveFar.PickDERPHome demoEnv (.ok 65536)).2 = .ret none ∧
      ((demoReceiveFar.PickDERPHome demoEnv (.ok 65536)).1.ClientAuth demoEnv).ReceiverDERPRegionID
        = 0 := by
  refine ⟨?_, ?_, ?_, ?_, ?_, ?_, ?_⟩ <;> decide

/-- What `PickDERPHome` does on each report. When the measurement fails, it returns
that error and leaves the receiver as it was. On the preferred region 0 it
succeeds, writes the warning to the human log and the bundle hands out region 1.
On a region `p` other than 0 that the relay map holds it succeeds, and a
successful call makes the bundle hand out `uint16(p)`, which is `p` whenever
`0 < p < 65536`. -/
theorem PickDERPHome_region (E : Env) (r : Receive) :
    (∀ err, r.PickDERPHome E (.error err) = (r, .ret (some err))) ∧
      (∃ r1, r.PickDERPHome E (.ok 0) = (r1, .ret none) ∧
        (r1.ClientAuth E).ReceiverDERPRegionID = 1 ∧
        r1.HumanLogf = r.HumanLogf ++
          ["Failed to determine overlay DERP region, defaulting to " ++ E.Code "NYC" ++ "."]) ∧
      (∀ (p : Int) (r1 : Receive), p ≠ 0 → r.PickDERPHome E (.ok p) = (r1, .ret none) →
        ((r1.ClientAuth E).ReceiverDERPRegionID : Int) = p % 65536 ∧
          (0 < p → p < 65536 → ((r1.ClientAuth E).ReceiverDERPRegionID : Int) = p)) ∧
      (∀ (p : Int) (region : DERPRegion), p ≠ 0 → r.DerpMap.lookup p = some region →
        ∃ r1, r.PickDERPHome E (.ok p) = (r1, .ret none)) := by
  refine ⟨fun err => rfl, ⟨_, rfl, rfl, rfl⟩, ?_, ?_⟩
  · intro p r1 hp hret
    simp only [Receive.PickDERPHome, hp, if_false] at hret
    cases hl : r.DerpMap.lookup p with
    | none => simp [hl] at hret
    | some region =>
      simp only [hl, Prod.mk.injEq, and_true] at hret
      subst hret
      have hmod : ((toUint16 p : Nat) : Int) = p % 65536 := by
        simp only [toUint16]
        exact Int.toNat_of_nonneg (Int.emod_nonneg p (by decide))
      refine ⟨hmod, ?_⟩
      intro h0 h1
      show ((toUint16 p : Nat) : Int) = p
      rw [hmod]
      exact Int.emod_eq_of_lt (le_of_lt h0) h1
  · intro p region hp hl
    simp only [Receive.PickDERPHome, hp, if_false, hl]
    exact ⟨_, rfl⟩

end Overlay
